import Mathlib

/-!
# swftools `lib/devices/polyops.c`: the clip-removing / union-tracking filter device

A shallow embedding of `polyops.c`.  The device sits between a producer and an
output device `i->out`; it keeps a stack of clip polygons and rewrites every
drawn shape into its already clipped form.

Modelling decisions (each one is visible in the definitions below):

* `gfxpoly_t*` values are addresses into an explicit heap.  Every `gfxpoly_*`
  routine that returns a polygon allocates a fresh address, every routine that
  takes a polygon reads it, and `gfxpoly_free` releases it.  Reading or freeing
  a released address is undefined behaviour in C; the model stops with an
  error there.
* The geometry routines of `gfxpoly.h` / `gfxtools.h`, the font table and the
  results of the output device are not part of this file of the repository;
  they are the fields of `Env`, and every theorem is stated for an arbitrary
  `Env`.
* `gfxline_t*` values are treated as values: in every path of the file a line
  obtained from `gfxpoly_to_gfxline` / `gfxline_clone` is used and released
  once, so `gfxline_clone` and `gfxline_free` do not show at this level.
* The C type `double` (of which `gfxcoord_t` is a typedef) is the type parameter
  `Coord`.  The floating-point operations `polyops_drawchar` performs on it
  (subtraction, `fabs`, the comparisons `<` and `>`, and the literals `0.001`,
  `0.05`) are fields of `Env`, so no theorem about an arbitrary `Env` assumes
  that they behave like exact arithmetic.
* All other pointers (`gfxcolor_t*`, `gfximage_t*`, `gfxmatrix_t*`, ...) are
  passed through by the device and are modelled by their address.
* Calls made through `i->out` are appended to `World.sink`.
-/

namespace Polyops

/-! ## Data model -/

/-- An address of an object the device only passes on (colour, image, matrix, font ...). -/
abbrev Ptr := Nat

/-- The bounding box record `gfxbbox_t` returned by `gfxline_getbbox`; `Coord` is
the type of its four `gfxcoord_t` fields. -/
structure gfxbbox_t (Coord : Type) where
  xmin : Coord
  ymin : Coord
  xmax : Coord
  ymax : Coord
deriving DecidableEq, Repr

/-- One call made on the output device `i->out`, with its arguments.  The
constructors are the entries of the `gfxdevice_t` dispatch table. -/
inductive SinkCall (Line Coord : Type) where
  | setparameter (key value : String)
  | startpage (width height : Int)
  | startclip (line : Line)
  | endclip
  | stroke (line : Line) (width : Coord) (color : Ptr) (cap_style joint_style : Int)
      (miterLimit : Coord)
  | fill (line : Line) (color : Ptr)
  | fillbitmap (line : Line) (img matrix cxform : Ptr)
  | fillgradient (line : Line) (gradient : Ptr) (type : Int) (matrix : Ptr)
  | addfont (font : Ptr)
  | drawchar (font : Ptr) (glyphnr : Int) (color matrix : Ptr)
  | drawlink (line : Line) (action : String)
  | endpage
  | finish
deriving DecidableEq, Repr

/-- The parts of the program that live outside `polyops.c`: the geometry
routines of `gfxpoly.h` and `gfxtools.h` acting on polygon and line values, the
glyph table of a font, the two enum constants used by `gfxdevice_union_init`,
the values the output device returns, and the arithmetic of C `double`. -/
structure Env (Line Poly Coord : Type) where
  /-- The C expression `a - b` on two `double` values. -/
  dbl_sub : Coord → Coord → Coord
  /-- The C library function `fabs`. -/
  fabs : Coord → Coord
  /-- The C expression `a < b` on two `double` values. -/
  dbl_lt : Coord → Coord → Bool
  /-- The C expression `a > b` on two `double` values. -/
  dbl_gt : Coord → Coord → Bool
  /-- The `double` literal `0.001` of line 227. -/
  lit_0_001 : Coord
  /-- The `double` literal `0.05` of lines 228-229. -/
  lit_0_05 : Coord
  /-- The `int` constant `0` converted to `double` (two arguments of line 328). -/
  dbl_zero : Coord
  /-- The null `gfxline_t*`, passed to `gfxpoly_strokeToPoly` by `gfxdevice_union_init`. -/
  nullLine : Line
  gfx_capButt : Int
  gfx_joinMiter : Int
  gfxpoly_fillToPoly : Line → Poly
  gfxpoly_strokeToPoly : Line → Coord → Int → Int → Coord → Poly
  gfxpoly_intersect : Poly → Poly → Poly
  gfxpoly_union : Poly → Poly → Poly
  gfxpoly_createbox : Coord → Coord → Coord → Coord → Poly
  gfxpoly_to_gfxline : Poly → Line
  gfxline_getbbox : Line → gfxbbox_t Coord
  /-- The line `gfxline_transform` leaves behind for the matrix stored at the given address. -/
  gfxline_transform : Line → Ptr → Line
  /-- The expression `font->glyphs[glyphnr].line`. -/
  glyphs : Ptr → Int → Line
  /-- The value `i->out->setparameter` returns after the given earlier calls. -/
  out_setparameter : List (SinkCall Line Coord) → String → String → Int
  /-- The value `i->out->finish` returns after the given earlier calls (a `gfxresult_t*`). -/
  out_finish : List (SinkCall Line Coord) → Option Ptr

/-- Undefined behaviour the model can run into. -/
inductive Err where
  | useAfterFree
  | doubleFree
  | nullPoly
deriving DecidableEq, Repr

/-- The record `internal_t`.  The chain of `clip_t` nodes is the list `clip`
(head = `i->clip`, tail = `->next`), each entry being the node's `poly`. -/
structure internal_t where
  out : Option Ptr
  clip : List Nat
  polyunion : Option Nat
deriving DecidableEq, Repr

/-- The device together with the memory and channels it acts on. -/
structure World (Line Poly Coord : Type) where
  /-- The field `dev->name`. -/
  name : String
  /-- The field `dev->internal`. -/
  i : internal_t
  /-- The polygon heap: cell `a` holds the polygon at address `a`, `none` once released. -/
  heap : List (Option Poly)
  /-- The calls made on `i->out`, oldest first. -/
  sink : List (SinkCall Line Coord)
  /-- The lines written to `stderr`, oldest first. -/
  stderr : List String
  /-- The lines written to `stdout`, oldest first. -/
  stdout : List String
deriving DecidableEq, Repr

section Model

variable {Line Poly Coord : Type}

/-! ## Polygon heap -/

/-- The entry of a heap at address `a` (`none` when released or never allocated). -/
def heapAt (h : List (Option Poly)) (a : Nat) : Option Poly := h.getD a none

/-- The content of heap cell `a` (`none` when released or never allocated). -/
def cell (w : World Line Poly Coord) (a : Nat) : Option Poly := heapAt w.heap a

/-- Read the polygon at address `a`; reading a released address is an error. -/
def deref (w : World Line Poly Coord) (a : Nat) : Except Err Poly :=
  match cell w a with
  | some v => .ok v
  | none => .error .useAfterFree

/-- Store a freshly made polygon at a new address. -/
def alloc (w : World Line Poly Coord) (v : Poly) : World Line Poly Coord × Nat :=
  ({ w with heap := w.heap ++ [some v] }, w.heap.length)

/-- The routine `gfxpoly_free`: release the polygon at `a`; a second release is an error. -/
def gfxpoly_free (w : World Line Poly Coord) (a : Nat) : Except Err (World Line Poly Coord) :=
  match cell w a with
  | some _ => .ok { w with heap := w.heap.set a none }
  | none => .error .doubleFree

/-- The routine `gfxpoly_intersect` on addresses: reads both operands, returns a new polygon. -/
def gfxpoly_intersect (E : Env Line Poly Coord) (w : World Line Poly Coord) (p q : Nat) :
    Except Err (World Line Poly Coord × Nat) := do
  let a ← deref w p
  let b ← deref w q
  pure (alloc w (E.gfxpoly_intersect a b))

/-- The routine `gfxpoly_union` on addresses: reads both operands, returns a new polygon. -/
def gfxpoly_union (E : Env Line Poly Coord) (w : World Line Poly Coord) (p q : Nat) :
    Except Err (World Line Poly Coord × Nat) := do
  let a ← deref w p
  let b ← deref w q
  pure (alloc w (E.gfxpoly_union a b))

/-- The routine `gfxpoly_to_gfxline` on an address. -/
def gfxpoly_to_gfxline (E : Env Line Poly Coord)
    (w : World Line Poly Coord) (p : Nat) : Except Err Line := do
  let a ← deref w p
  pure (E.gfxpoly_to_gfxline a)

/-! ## Diagnostics -/

/-- The file-local flag `static int verbose = 0`; nothing in the file assigns it. -/
def verbose : Int := 0

/-- The function `dbg`: returns at once unless `verbose`, else prints the message
(trailing newlines removed) with the device tag. -/
def dbg (w : World Line Poly Coord) (format : String) : World Line Poly Coord :=
  if verbose = 0 then w
  else { w with stdout := w.stdout ++
          ["(device-polyops) " ++ format.dropRightWhile (fun c => c = Char.ofNat 10) ++ "\n"] }

/-- Append one call to the trace of the output device. -/
def callOut (w : World Line Poly Coord) (c : SinkCall Line Coord) : World Line Poly Coord :=
  { w with sink := w.sink ++ [c] }

/-! ## The device functions -/

/-- The function `polyops_setparameter` (lines 68-74). -/
def polyops_setparameter (E : Env Line Poly Coord)
    (w : World Line Poly Coord) (key value : String) :
    World Line Poly Coord × Int :=
  let w := dbg w "polyops_setparameter"
  match w.i.out with
  | some _ => (callOut w (.setparameter key value), E.out_setparameter w.sink key value)
  | none => (w, 0)

/-- The function `polyops_startpage` (lines 76-81). -/
def polyops_startpage (w : World Line Poly Coord) (width height : Int) : World Line Poly Coord :=
  let w := dbg w "polyops_startpage"
  match w.i.out with
  | some _ => callOut w (.startpage width height)
  | none => w

/-- The function `polyops_startclip` (lines 83-101). -/
def polyops_startclip (E : Env Line Poly Coord) (w : World Line Poly Coord) (line : Line) :
    Except Err (World Line Poly Coord) := do
  let w := dbg w "polyops_startclip"
  let (w, poly) := alloc w (E.gfxpoly_fillToPoly line)
  match w.i.clip with
  | old :: n =>
    let (w, p) ← gfxpoly_intersect E w poly old
    let w := { w with i := { w.i with clip := p :: old :: n } }
    gfxpoly_free w poly
  | [] =>
    pure { w with i := { w.i with clip := [poly] } }

/-- The function `polyops_endclip` (lines 103-116). -/
def polyops_endclip (w : World Line Poly Coord) : Except Err (World Line Poly Coord) := do
  let w := dbg w "polyops_endclip"
  match w.i.clip with
  | old :: next =>
    let w := { w with i := { w.i with clip := next } }
    gfxpoly_free w old
  | [] =>
    pure { w with stderr := w.stderr ++ ["Error: endclip without startclip\n"] }

/-- The function `addtounion` (lines 118-126). -/
def addtounion (E : Env Line Poly Coord) (w : World Line Poly Coord) (poly : Nat) :
    Except Err (World Line Poly Coord) := do
  match w.i.polyunion with
  | some old =>
    let (w, u) ← gfxpoly_union E w poly old
    let w := { w with i := { w.i with polyunion := some u } }
    gfxpoly_free w old
  | none => pure w

/-- The function `polyops_stroke` (lines 128-144). -/
def polyops_stroke (E : Env Line Poly Coord)
    (w : World Line Poly Coord) (line : Line) (width : Coord)
    (color : Ptr) (cap_style joint_style : Int) (miterLimit : Coord) :
    Except Err (World Line Poly Coord) := do
  let w := dbg w "polyops_stroke"
  let (w, poly) := alloc w (E.gfxpoly_strokeToPoly line width cap_style joint_style miterLimit)
  let (w, poly) ← (match w.i.clip with
    | c :: _ => do
      let old := poly
      let (w, poly) ← gfxpoly_intersect E w poly c
      let w ← gfxpoly_free w old
      pure (w, poly)
    | [] => pure (w, poly))
  let w ← addtounion E w poly
  let gfxline ← gfxpoly_to_gfxline E w poly
  let w := (match w.i.out with
    | some _ => callOut w (.fill gfxline color)
    | none => w)
  gfxpoly_free w poly

/-- The function `polyops_fill` (lines 146-163).  Inside the clip branch the
source calls `gfxpoly_free(poly)` on the polygon it has just computed (line 156);
`old` is never released. -/
def polyops_fill (E : Env Line Poly Coord) (w : World Line Poly Coord) (line : Line) (color : Ptr) :
    Except Err (World Line Poly Coord) := do
  let w := dbg w "polyops_fill"
  let (w, poly) := alloc w (E.gfxpoly_fillToPoly line)
  let (w, poly) ← (match w.i.clip with
    | c :: _ => do
      let (w, poly) ← gfxpoly_intersect E w poly c
      let w ← gfxpoly_free w poly
      pure (w, poly)
    | [] => pure (w, poly))
  let w ← addtounion E w poly
  let gfxline ← gfxpoly_to_gfxline E w poly
  let w := (match w.i.out with
    | some _ => callOut w (.fill gfxline color)
    | none => w)
  gfxpoly_free w poly

/-- The function `polyops_fillbitmap` (lines 165-181). -/
def polyops_fillbitmap (E : Env Line Poly Coord) (w : World Line Poly Coord) (line : Line)
    (img matrix cxform : Ptr) : Except Err (World Line Poly Coord) := do
  let w := dbg w "polyops_fillbitmap"
  let (w, poly) := alloc w (E.gfxpoly_fillToPoly line)
  let (w, poly) ← (match w.i.clip with
    | c :: _ => do
      let old := poly
      let (w, poly) ← gfxpoly_intersect E w poly c
      let w ← gfxpoly_free w old
      pure (w, poly)
    | [] => pure (w, poly))
  let w ← addtounion E w poly
  let gfxline ← gfxpoly_to_gfxline E w poly
  let w := (match w.i.out with
    | some _ => callOut w (.fillbitmap gfxline img matrix cxform)
    | none => w)
  gfxpoly_free w poly

/-- The function `polyops_fillgradient` (lines 183-198). -/
def polyops_fillgradient (E : Env Line Poly Coord) (w : World Line Poly Coord) (line : Line)
    (gradient : Ptr) (type : Int) (matrix : Ptr) : Except Err (World Line Poly Coord) := do
  let w := dbg w "polyops_fillgradient"
  let (w, poly) := alloc w (E.gfxpoly_fillToPoly line)
  let (w, poly) ← (match w.i.clip with
    | c :: _ => do
      let old := poly
      let (w, poly) ← gfxpoly_intersect E w poly c
      let w ← gfxpoly_free w old
      pure (w, poly)
    | [] => pure (w, poly))
  let w ← addtounion E w poly
  let gfxline ← gfxpoly_to_gfxline E w poly
  let w := (match w.i.out with
    | some _ => callOut w (.fillgradient gfxline gradient type matrix)
    | none => w)
  gfxpoly_free w poly

/-- The function `polyops_addfont` (lines 200-205). -/
def polyops_addfont (w : World Line Poly Coord) (font : Ptr) : World Line Poly Coord :=
  let w := dbg w "polyops_addfont"
  match w.i.out with
  | some _ => callOut w (.addfont font)
  | none => w

/-- The function `polyops_drawchar` (lines 207-242).  The null test on `font`
is the match on `none`; the polygons `dummybox` and `poly` are never released
by the source.  The locals `w` and `h` of lines 222-223 (here `wd` and `h`) and
the two tests of lines 227-229 are computed with the `double` operations of
`E`. -/
def polyops_drawchar (E : Env Line Poly Coord) (w : World Line Poly Coord) (font : Option Ptr)
    (glyphnr : Int) (color matrix : Ptr) : Except Err (World Line Poly Coord) := do
  let w := dbg w "polyops_drawchar"
  match font with
  | none => pure w
  | some font =>
    let glyph := E.gfxline_transform (E.glyphs font glyphnr) matrix
    match w.i.clip with
    | c :: _ =>
      let bbox := E.gfxline_getbbox glyph
      let (w, dummybox) := alloc w (E.gfxpoly_createbox bbox.xmin bbox.ymin bbox.xmax bbox.ymax)
      let (w, poly) ← gfxpoly_intersect E w dummybox c
      let gfxline ← gfxpoly_to_gfxline E w poly
      let bbox2 := E.gfxline_getbbox gfxline
      let wd := E.dbl_sub bbox2.xmax bbox2.xmin
      let h := E.dbl_sub bbox2.ymax bbox2.ymin
      let w ← addtounion E w poly
      if E.dbl_lt wd E.lit_0_001 = true ∨ E.dbl_lt h E.lit_0_001 = true then
        pure w
      else if E.dbl_gt (E.fabs (E.dbl_sub (E.dbl_sub bbox.xmax bbox.xmin) wd)) E.lit_0_05 = true ∨
          E.dbl_gt (E.fabs (E.dbl_sub (E.dbl_sub bbox.ymax bbox.ymin) h)) E.lit_0_05 = true then
        polyops_fill E w glyph color
      else
        match w.i.out with
        | some _ => pure (callOut w (.drawchar font glyphnr color matrix))
        | none => pure w
    | [] =>
      match w.i.out with
      | some _ => pure (callOut w (.drawchar font glyphnr color matrix))
      | none => pure w

/-- The function `polyops_drawlink` (lines 244-249). -/
def polyops_drawlink
    (w : World Line Poly Coord) (line : Line) (action : String) : World Line Poly Coord :=
  let w := dbg w "polyops_drawlink"
  match w.i.out with
  | some _ => callOut w (.drawlink line action)
  | none => w

/-- The function `polyops_endpage` (lines 251-256). -/
def polyops_endpage (w : World Line Poly Coord) : World Line Poly Coord :=
  let w := dbg w "polyops_endpage"
  match w.i.out with
  | some _ => callOut w .endpage
  | none => w

/-- The function `polyops_finish` (lines 258-267). -/
def polyops_finish (E : Env Line Poly Coord)
    (w : World Line Poly Coord) : World Line Poly Coord × Option Ptr :=
  let w := dbg w "polyops_finish"
  match w.i.out with
  | some _ => (callOut w .finish, E.out_finish w.sink)
  | none => (w, none)

/-- The function `gfxdevice_union_getunion` (lines 269-273); `i->polyunion` is
handed to `gfxpoly_to_gfxline` without a null test. -/
def gfxdevice_union_getunion (E : Env Line Poly Coord)
    (w : World Line Poly Coord) : Except Err Line :=
  match w.i.polyunion with
  | some u => gfxpoly_to_gfxline E w u
  | none => .error .nullPoly

/-- The function `gfxdevice_removeclippings_init` (lines 275-301): a zeroed
`internal_t` bound to `out`, no union polygon. -/
def gfxdevice_removeclippings_init (out : Option Ptr) : World Line Poly Coord :=
  let w : World Line Poly Coord :=
    { name := "", i := { out := none, clip := [], polyunion := none },
      heap := [], sink := [], stderr := [], stdout := [] }
  let w := dbg w "gfxdevice_removeclippings_init"
  { w with name := "removeclippings", i := { w.i with out := out, polyunion := none } }

/-- The function `gfxdevice_union_init` (lines 303-329): as above, and the
union polygon is seeded with the stroke polygon of the null line. -/
def gfxdevice_union_init (E : Env Line Poly Coord) (out : Option Ptr) : World Line Poly Coord :=
  let w : World Line Poly Coord :=
    { name := "", i := { out := none, clip := [], polyunion := none },
      heap := [], sink := [], stderr := [], stdout := [] }
  let w := dbg w "gfxdevice_getunion_init"
  let w := { w with name := "union", i := { w.i with out := out } }
  let (w, p) := alloc w
    (E.gfxpoly_strokeToPoly E.nullLine E.dbl_zero E.gfx_capButt E.gfx_joinMiter E.dbl_zero)
  { w with i := { w.i with polyunion := some p } }

/-! ## Command sequences -/

/-- One call of the producer on the device, by entry of the dispatch table that
both `..._init` functions install. -/
inductive Cmd (Line Coord : Type) where
  | setparameter (key value : String)
  | startpage (width height : Int)
  | startclip (line : Line)
  | endclip
  | stroke (line : Line) (width : Coord) (color : Ptr) (cap_style joint_style : Int)
      (miterLimit : Coord)
  | fill (line : Line) (color : Ptr)
  | fillbitmap (line : Line) (img matrix cxform : Ptr)
  | fillgradient (line : Line) (gradient : Ptr) (type : Int) (matrix : Ptr)
  | addfont (font : Ptr)
  | drawchar (font : Option Ptr) (glyphnr : Int) (color matrix : Ptr)
  | drawlink (line : Line) (action : String)
  | endpage
  | finish
deriving DecidableEq, Repr

/-- What a device call hands back to the producer. -/
inductive Ret where
  | void
  | int (n : Int)
  | result (r : Option Ptr)
deriving DecidableEq, Repr

/-- Dispatch of one command to the function installed for it. -/
def exec (E : Env Line Poly Coord)
    (w : World Line Poly Coord) : Cmd Line Coord → Except Err (World Line Poly Coord × Ret)
  | .setparameter key value =>
    let r := polyops_setparameter E w key value
    pure (r.1, .int r.2)
  | .startpage width height => pure (polyops_startpage w width height, .void)
  | .startclip line => do pure ((← polyops_startclip E w line), .void)
  | .endclip => do pure ((← polyops_endclip w), .void)
  | .stroke line width color cap_style joint_style miterLimit => do
    pure ((← polyops_stroke E w line width color cap_style joint_style miterLimit), .void)
  | .fill line color => do pure ((← polyops_fill E w line color), .void)
  | .fillbitmap line img matrix cxform => do
    pure ((← polyops_fillbitmap E w line img matrix cxform), .void)
  | .fillgradient line gradient type matrix => do
    pure ((← polyops_fillgradient E w line gradient type matrix), .void)
  | .addfont font => pure (polyops_addfont w font, .void)
  | .drawchar font glyphnr color matrix => do
    pure ((← polyops_drawchar E w font glyphnr color matrix), .void)
  | .drawlink line action => pure (polyops_drawlink w line action, .void)
  | .endpage => pure (polyops_endpage w, .void)
  | .finish =>
    let r := polyops_finish E w
    pure (r.1, .result r.2)

/-- Run a command sequence; the first error ends the run. -/
def run (E : Env Line Poly Coord)
    (w : World Line Poly Coord) : List (Cmd Line Coord) → Except Err (World Line Poly Coord)
  | [] => pure w
  | c :: cs => do
    let r ← exec E w c
    run E r.1 cs

/-- Run a command sequence and keep the world reached by its longest error-free
initial segment. -/
def runGood (E : Env Line Poly Coord)
    (w : World Line Poly Coord) : List (Cmd Line Coord) → World Line Poly Coord
  | [] => w
  | c :: cs =>
    match exec E w c with
    | .ok r => runGood E r.1 cs
    | .error _ => w

/-! ## Vocabulary of the statements -/

/-- The active clip polygon: the polygon stored in the top clip frame, if any. -/
def activeClip (w : World Line Poly Coord) : Option Poly :=
  match w.i.clip with
  | [] => none
  | c :: _ => cell w c

/-- The union accumulator's polygon, if the device tracks one. -/
def unionPoly (w : World Line Poly Coord) : Option Poly :=
  match w.i.polyunion with
  | none => none
  | some u => cell w u

/-- A well-formed device state: every clip frame holds a polygon that has not
been released, no two frames share one, and the union accumulator (when
present) holds an unreleased polygon that no clip frame holds. -/
def WF (w : World Line Poly Coord) : Prop :=
  (∀ a ∈ w.i.clip, (cell w a).isSome) ∧ w.i.clip.Nodup ∧
    (∀ u ∈ w.i.polyunion, (cell w u).isSome ∧ u ∉ w.i.clip)

/-- The `startclip` and `endclip` entries of the output device. -/
def SinkCall.isClip : SinkCall Line Coord → Bool
  | .startclip _ => true
  | .endclip => true
  | _ => false

/-- The `stroke` entry of the output device. -/
def SinkCall.isStroke : SinkCall Line Coord → Bool
  | .stroke .. => true
  | _ => false

/-- The outlines of the startclip calls that are open after a command sequence,
innermost first; an `endclip` closes the innermost open one and closes nothing
when none is open. -/
def openClips : List (Cmd Line Coord) → List Line → List Line
  | [], acc => acc
  | .startclip l :: cs, acc => openClips cs (l :: acc)
  | .endclip :: cs, acc => openClips cs acc.tail
  | _ :: cs, acc => openClips cs acc

/-- The nested intersection `intersect(P_n, intersect(P_{n-1}, ... P_1))` of the
fill polygons of the outline `l` followed by the outlines `ls` (innermost first). -/
def nestedPoly (E : Env Line Poly Coord) (l : Line) : List Line → Poly
  | [] => E.gfxpoly_fillToPoly l
  | l2 :: ls => E.gfxpoly_intersect (E.gfxpoly_fillToPoly l) (nestedPoly E l2 ls)

/-- The nested intersection of the fill polygons of the given outlines
(innermost first); absent when there is no outline. -/
def nestedIntersect (E : Env Line Poly Coord) : List Line → Option Poly
  | [] => none
  | l :: ls => some (nestedPoly E l ls)

/-- The clip frames `cs` (top first) hold, frame by frame, the nested
intersection of the open outlines `ls` from that depth down. -/
def StackOK (E : Env Line Poly Coord) (w : World Line Poly Coord) : List Nat → List Line → Prop
  | [], [] => True
  | c :: cs, l :: ls => cell w c = some (nestedPoly E l ls) ∧ StackOK E w cs ls
  | _, _ => False

/-- The invariant of the device along a run: the state is well formed, the
clip frames hold the nested intersections of the open outlines `ls`, and the
output device has received no `startclip` or `endclip`. -/
def Inv (E : Env Line Poly Coord) (w : World Line Poly Coord) (ls : List Line) : Prop :=
  WF w ∧ StackOK E w w.i.clip ls ∧ ∀ x ∈ w.sink, SinkCall.isClip x = false

/-- The polygon a shape is forwarded as: the shape polygon itself with no active
clip, else its intersection with the active clip polygon. -/
def clipped (E : Env Line Poly Coord) (w : World Line Poly Coord) (p : Poly) : Poly :=
  match activeClip w with
  | some c => E.gfxpoly_intersect p c
  | none => p

/-- The glyph outline `polyops_drawchar` works on: `font->glyphs[glyphnr].line`
after `gfxline_transform` with `matrix`. -/
def glyphLine (E : Env Line Poly Coord) (font : Ptr) (glyphnr : Int) (matrix : Ptr) : Line :=
  E.gfxline_transform (E.glyphs font glyphnr) matrix

/-- The local `bbox` of `polyops_drawchar`: the bounding box of the transformed glyph. -/
def glyphBBox (E : Env Line Poly Coord) (font : Ptr) (glyphnr : Int) (matrix : Ptr) :
    gfxbbox_t Coord :=
  E.gfxline_getbbox (glyphLine E font glyphnr matrix)

/-- The box polygon `gfxpoly_createbox` makes of a bounding box. -/
def boxPoly (E : Env Line Poly Coord) (b : gfxbbox_t Coord) : Poly :=
  E.gfxpoly_createbox b.xmin b.ymin b.xmax b.ymax

/-- The local `bbox2` of `polyops_drawchar`: the bounding box of the outline of
the glyph's box polygon intersected with the active clip. -/
def clippedBBox (E : Env Line Poly Coord) (w : World Line Poly Coord) (font : Ptr) (glyphnr : Int)
    (matrix : Ptr) : gfxbbox_t Coord :=
  E.gfxline_getbbox
    (E.gfxpoly_to_gfxline (clipped E w (boxPoly E (glyphBBox E font glyphnr matrix))))

/-- Lines 218-225 of `polyops_drawchar`, the part of the clip branch before the
three-way decision: box polygon, intersection with the top clip `c`, its outline
and bounding box `bbox2`, and the call of `addtounion`.  `polyops_drawchar` is
this followed by the decision (`polyops_drawchar_clip_eq`). -/
def drawcharClipBox (E : Env Line Poly Coord)
    (w : World Line Poly Coord) (c : Nat) (bbox : gfxbbox_t Coord) :
    Except Err (World Line Poly Coord × gfxbbox_t Coord) := do
  let (w, dummybox) := alloc w (E.gfxpoly_createbox bbox.xmin bbox.ymin bbox.xmax bbox.ymax)
  let (w, poly) ← gfxpoly_intersect E w dummybox c
  let gfxline ← gfxpoly_to_gfxline E w poly
  let bbox2 := E.gfxline_getbbox gfxline
  let w ← addtounion E w poly
  pure (w, bbox2)

/-- Width `xmax - xmin` of a bounding box, as the code computes it (a `double`
subtraction). -/
def gfxbbox_t.width (b : gfxbbox_t Coord) (E : Env Line Poly Coord) : Coord :=
  E.dbl_sub b.xmax b.xmin

/-- Height `ymax - ymin` of a bounding box, as the code computes it (a `double`
subtraction). -/
def gfxbbox_t.height (b : gfxbbox_t Coord) (E : Env Line Poly Coord) : Coord :=
  E.dbl_sub b.ymax b.ymin

/-- The test `w < 0.001 || h < 0.001` of line 227 on the clipped bounding box
`b2`, evaluated with the `double` operations of `E`. -/
def clippedAway (E : Env Line Poly Coord) (b2 : gfxbbox_t Coord) : Prop :=
  E.dbl_lt (b2.width E) E.lit_0_001 = true ∨ E.dbl_lt (b2.height E) E.lit_0_001 = true

instance clippedAway.decidable (E : Env Line Poly Coord) (b2 : gfxbbox_t Coord) :
    Decidable (clippedAway E b2) :=
  inferInstanceAs (Decidable (_ ∨ _))

/-- The test `fabs((bbox.xmax - bbox.xmin) - w) > 0.05 ||
fabs((bbox.ymax - bbox.ymin) - h) > 0.05` of lines 228-229 on the glyph's
bounding box `b` and the clipped one `b2`, evaluated with the `double`
operations of `E`. -/
def sizeChanged (E : Env Line Poly Coord) (b b2 : gfxbbox_t Coord) : Prop :=
  E.dbl_gt (E.fabs (E.dbl_sub (b.width E) (b2.width E))) E.lit_0_05 = true ∨
    E.dbl_gt (E.fabs (E.dbl_sub (b.height E) (b2.height E))) E.lit_0_05 = true

instance sizeChanged.decidable (E : Env Line Poly Coord) (b b2 : gfxbbox_t Coord) :
    Decidable (sizeChanged E b b2) :=
  inferInstanceAs (Decidable (_ ∨ _))

/-- The lines that `polyops_stroke`, `polyops_fillbitmap` and `polyops_fillgradient`
share after converting the shape to the polygon `poly`: intersect with the top
clip and release the superseded polygon, add to the union, convert back, hand
the outline to the output device through `mk`, release the polygon.  The three
functions are instances of it (`polyops_stroke_eq` and its siblings). -/
def clipAndForward (E : Env Line Poly Coord) (w : World Line Poly Coord) (poly : Nat)
    (mk : Line → SinkCall Line Coord) : Except Err (World Line Poly Coord) := do
  let (w, poly) ← (match w.i.clip with
    | c :: _ => do
      let old := poly
      let (w, poly) ← gfxpoly_intersect E w poly c
      let w ← gfxpoly_free w old
      pure (w, poly)
    | [] => pure (w, poly))
  let w ← addtounion E w poly
  let gfxline ← gfxpoly_to_gfxline E w poly
  let w := (match w.i.out with
    | some _ => callOut w (mk gfxline)
    | none => w)
  gfxpoly_free w poly

/-- The state `w` with the lines written to stderr replaced by `s`. -/
def setStderr (s : List String) (w : World Line Poly Coord) : World Line Poly Coord :=
  { w with stderr := s }

/-- What a device function may change besides the polygon heap and the union
pointer: nothing but the trace of the output device. -/
def SameDevice (w w' : World Line Poly Coord) : Prop :=
  w'.name = w.name ∧ w'.i.out = w.i.out ∧ w'.i.clip = w.i.clip ∧
    w'.stderr = w.stderr ∧ w'.stdout = w.stdout

/-- The heap of `w'` extends the heap of `w`: every cell of `w` other than the
old union polygon keeps its content. -/
def HeapKept (w w' : World Line Poly Coord) : Prop :=
  w.heap.length ≤ w'.heap.length ∧
    ∀ a, a < w.heap.length → w.i.polyunion ≠ some a → cell w' a = cell w a

/-- The union pointer of `w'` after the polygon `v` was added to the union of
`w`: still absent if it was absent, else a new cell holding `union(v, old)`
while the old cell is released. -/
def UnionAdded (E : Env Line Poly Coord) (w w' : World Line Poly Coord) (v : Poly) : Prop :=
  match w.i.polyunion with
  | none => w'.i.polyunion = none
  | some u => ∃ u', w'.i.polyunion = some u' ∧ w.heap.length ≤ u' ∧
      cell w' u' = (cell w u).map (fun old => E.gfxpoly_union v old) ∧ cell w' u = none

/-- Every cell allocated between `w` and `w'` is released in `w'`, the new
union polygon apart. -/
def TempsReleased (w w' : World Line Poly Coord) : Prop :=
  ∀ a, w.heap.length ≤ a → w'.i.polyunion ≠ some a → cell w' a = none

/-- The polygon a command folds into the union accumulator when it is run in
state `w`, if it folds one: the clipped shape polygon for stroke, fill,
fillbitmap and fillgradient, the clipped box polygon of the glyph's bounding box
for a drawchar with a font under an active clip, nothing otherwise. -/
def foldedPoly (E : Env Line Poly Coord) (w : World Line Poly Coord) :
    Cmd Line Coord → Option Poly
  | .stroke line width _ cap_style joint_style miterLimit =>
    some (clipped E w (E.gfxpoly_strokeToPoly line width cap_style joint_style miterLimit))
  | .fill line _ => some (clipped E w (E.gfxpoly_fillToPoly line))
  | .fillbitmap line _ _ _ => some (clipped E w (E.gfxpoly_fillToPoly line))
  | .fillgradient line _ _ _ => some (clipped E w (E.gfxpoly_fillToPoly line))
  | .drawchar (some font) glyphnr _ matrix =>
    match w.i.clip with
    | [] => none
    | _ :: _ => some (clipped E w (boxPoly E (glyphBBox E font glyphnr matrix)))
  | _ => none

/-- The polygon `p` cut to the nested intersection of the open outlines `ls`
(innermost first); `p` itself when none is open. -/
def clipBy (E : Env Line Poly Coord) (ls : List Line) (p : Poly) : Poly :=
  match nestedIntersect E ls with
  | some c => E.gfxpoly_intersect p c
  | none => p

/-- The polygon a command folds into the union accumulator while the outlines
`ls` are open, told from the command sequence alone: the shape polygon of a
stroke, fill, fillbitmap or fillgradient cut to the open clips, the box polygon
of the glyph's bounding box cut to the open clips for a drawchar with a font
while a clip is open, nothing otherwise. -/
def foldedBy (E : Env Line Poly Coord) (ls : List Line) : Cmd Line Coord → Option Poly
  | .stroke line width _ cap_style joint_style miterLimit =>
    some (clipBy E ls (E.gfxpoly_strokeToPoly line width cap_style joint_style miterLimit))
  | .fill line _ => some (clipBy E ls (E.gfxpoly_fillToPoly line))
  | .fillbitmap line _ _ _ => some (clipBy E ls (E.gfxpoly_fillToPoly line))
  | .fillgradient line _ _ _ => some (clipBy E ls (E.gfxpoly_fillToPoly line))
  | .drawchar (some font) glyphnr _ matrix =>
    match ls with
    | [] => none
    | _ :: _ => some (clipBy E ls (boxPoly E (glyphBBox E font glyphnr matrix)))
  | _ => none

/-- The fold of `union` over the polygons the commands of a sequence fold, in
issue order, starting from the accumulator `acc` with the outlines `ls` open. -/
def unionFold (E : Env Line Poly Coord) : List (Cmd Line Coord) → List Line → Poly → Poly
  | [], _, acc => acc
  | c :: cs, ls, acc =>
    unionFold E cs (openClips [c] ls)
      (match foldedBy E ls c with
        | some v => E.gfxpoly_union v acc
        | none => acc)

/-- Each clip frame of the list holds a polygon that is contained, in the sense
of `sub`, in the polygon held by the frame below it (its parent). -/
def FramesNested (sub : Poly → Poly → Prop) (w : World Line Poly Coord) : List Nat → Prop
  | c :: p :: rest =>
    (∃ vc vp, cell w c = some vc ∧ cell w p = some vp ∧ sub vc vp) ∧
      FramesNested sub w (p :: rest)
  | _ => True

end Model

/-! ## A concrete environment

Regions are finite unions of axis-parallel boxes with rational corners.  It is
used to evaluate the device on concrete inputs.  Its arithmetic is exact; the
two literals are the exact values of the `double` constants `0.001` and `0.05`.
Every coordinate that reaches the tests of `polyops_drawchar` in the
evaluations below is an integer of small size or `1/2048`, and so are their
differences: on these values `double` subtraction, `fabs` and comparison are
exact, so the box environment computes what the C code computes. -/

/-- A bounding box with rational corners. -/
abbrev Box := gfxbbox_t ℚ

/-- Intersection of two boxes; `none` when they share no interior. -/
def boxInter (a b : Box) : Option Box :=
  let r : Box :=
    ⟨max a.xmin b.xmin, max a.ymin b.ymin, min a.xmax b.xmax, min a.ymax b.ymax⟩
  if r.xmin < r.xmax ∧ r.ymin < r.ymax then some r else none

/-- Smallest box around two boxes. -/
def boxHull (a b : Box) : Box :=
  ⟨min a.xmin b.xmin, min a.ymin b.ymin, max a.xmax b.xmax, max a.ymax b.ymax⟩

/-- Bounding box of a list of boxes; the zero box for the empty list. -/
def boxesBBox : List Box → Box
  | [] => ⟨0, 0, 0, 0⟩
  | b :: bs => bs.foldl boxHull b

/-- A box moved by `d` along the x axis. -/
def boxShift (d : ℚ) (b : Box) : Box :=
  ⟨b.xmin + d, b.ymin, b.xmax + d, b.ymax⟩

/-- A box grown by `d` on every side. -/
def boxGrow (d : ℚ) (b : Box) : Box :=
  ⟨b.xmin - d, b.ymin - d, b.xmax + d, b.ymax + d⟩

/-- The box environment: outlines and polygons are lists of boxes, a stroke
covers its boxes grown by half the width, the matrix at address `m` moves by `m`
along x, glyph `n` of every font is the box of height 10 and width `n / 10000`
(only glyph 100000, of width 10, is evaluated below), and the output device
answers `setparameter` with 1 and `finish` with address 7.  The literals are
the values of the `double` constants: `0.001` is `1152921504606847 / 2^60` and
`0.05` is `3602879701896397 / 2^56`. -/
def boxEnv : Env (List Box) (List Box) ℚ where
  dbl_sub := fun a b => a - b
  fabs := fun a => |a|
  dbl_lt := fun a b => decide (a < b)
  dbl_gt := fun a b => decide (a > b)
  lit_0_001 := 1152921504606847 / 1152921504606846976
  lit_0_05 := 3602879701896397 / 72057594037927936
  dbl_zero := 0
  nullLine := []
  gfx_capButt := 0
  gfx_joinMiter := 0
  gfxpoly_fillToPoly := fun l => l.filter (fun b => b.xmin < b.xmax ∧ b.ymin < b.ymax)
  gfxpoly_strokeToPoly := fun l width _ _ _ =>
    (l.map (boxGrow (width / 2))).filter (fun b => b.xmin < b.xmax ∧ b.ymin < b.ymax)
  gfxpoly_intersect := fun p q => p.flatMap (fun a => q.filterMap (boxInter a))
  gfxpoly_union := fun p q => p ++ q
  gfxpoly_createbox := fun x1 y1 x2 y2 =>
    if x1 < x2 ∧ y1 < y2 then [⟨x1, y1, x2, y2⟩] else []
  gfxpoly_to_gfxline := fun p => p
  gfxline_getbbox := boxesBBox
  gfxline_transform := fun l m => l.map (boxShift m)
  glyphs := fun _ n => [⟨0, 0, (n : ℚ) / 10000, 10⟩]
  out_setparameter := fun _ _ _ => 1
  out_finish := fun _ => some 7

/-- The outline of the rectangle `rect[x1,y1,x2,y2]`. -/
def rect (x1 y1 x2 y2 : ℚ) : List Box := [⟨x1, y1, x2, y2⟩]

/-- The removeclippings device bound to an output device at address 1. -/
def dev0 : World (List Box) (List Box) ℚ := gfxdevice_removeclippings_init (some 1)

/-- The state of `dev0` after `startclip(rect[0,0,10,10])`. -/
def devClip : World (List Box) (List Box) ℚ :=
  { name := "removeclippings", i := { out := some 1, clip := [0], polyunion := none },
    heap := [some (rect 0 0 10 10)], sink := [], stderr := [], stdout := [] }

/-- The state of `dev0` after `startclip(rect[0,0,10,10])`, `startclip(rect[5,5,15,15])`. -/
def devClip2 : World (List Box) (List Box) ℚ :=
  { name := "removeclippings", i := { out := some 1, clip := [2, 0], polyunion := none },
    heap := [some (rect 0 0 10 10), none, some (rect 5 5 10 10)],
    sink := [], stderr := [], stdout := [] }

/-- The state of `dev0` after `startclip(rect[0,0,100,100])`. -/
def devClipBig : World (List Box) (List Box) ℚ :=
  { name := "removeclippings", i := { out := some 1, clip := [0], polyunion := none },
    heap := [some (rect 0 0 100 100)], sink := [], stderr := [], stdout := [] }

/-- The state of `dev0` after `startclip(rect[0,0,100,2])`. -/
def devClipLow : World (List Box) (List Box) ℚ :=
  { name := "removeclippings", i := { out := some 1, clip := [0], polyunion := none },
    heap := [some (rect 0 0 100 2)], sink := [], stderr := [], stdout := [] }

/-- The box environment with another font table: glyph 0 has no outline
(`font->glyphs[0].line` is the null line), glyph 1 is made of two bars,
`[0,0,2,10]` and `[8,0,10,10]`, glyph 2 is the sliver `[0,0,1/2048,10]`, and
the other glyphs are as in `boxEnv`. -/
def boxEnvFont : Env (List Box) (List Box) ℚ :=
  { boxEnv with
    glyphs := fun _ n =>
      if n = 0 then []
      else if n = 1 then [⟨0, 0, 2, 10⟩, ⟨8, 0, 10, 10⟩]
      else if n = 2 then [⟨0, 0, 1 / 2048, 10⟩]
      else [⟨0, 0, (n : ℚ) / 10000, 10⟩] }

/-- The removeclippings device with no output device bound, after
`startclip(rect[0,0,10,10])`. -/
def devClipNoSink : World (List Box) (List Box) ℚ :=
  { name := "removeclippings", i := { out := none, clip := [0], polyunion := none },
    heap := [some (rect 0 0 10 10)], sink := [], stderr := [], stdout := [] }

/-- The state of the union device bound to address 1 after `startclip(rect[0,0,10,10])`. -/
def devUClip : World (List Box) (List Box) ℚ :=
  { name := "union", i := { out := some 1, clip := [1], polyunion := some 0 },
    heap := [some [], some (rect 0 0 10 10)], sink := [], stderr := [], stdout := [] }

/-- The state of the union device bound to address 1 after `startclip(rect[0,0,100,2])`. -/
def devUClipLow : World (List Box) (List Box) ℚ :=
  { name := "union", i := { out := some 1, clip := [1], polyunion := some 0 },
    heap := [some [], some (rect 0 0 100 2)], sink := [], stderr := [], stdout := [] }

/-- The state of the union device bound to address 1 after `startclip(rect[0,0,100,100])`. -/
def devUClipBig : World (List Box) (List Box) ℚ :=
  { name := "union", i := { out := some 1, clip := [1], polyunion := some 0 },
    heap := [some [], some (rect 0 0 100 100)], sink := [], stderr := [], stdout := [] }

/-- The state of `devUClip` after `fillbitmap(rect[5,5,15,15])`, with the call's result. -/
def devUClipFilled : World (List Box) (List Box) ℚ × Ret :=
  ({ name := "union", i := { out := some 1, clip := [1], polyunion := some 4 },
      heap := [none, some (rect 0 0 10 10), none, none, some (rect 5 5 10 10)],
      sink := [SinkCall.fillbitmap (rect 5 5 10 10) 3 4 5], stderr := [], stdout := [] },
    Ret.void)

/-- Area of a box, zero for a box with no interior. -/
def boxArea (b : Box) : ℚ := max 0 (b.xmax - b.xmin) * max 0 (b.ymax - b.ymin)

/-- Total area of the boxes of a region of the box environment. -/
def boxesArea (p : List Box) : ℚ := (p.map boxArea).sum

/-- Containment of regions of the box environment: every box of `p` lies within
a box of `q`. -/
def boxesSub (p q : List Box) : Prop :=
  ∀ x ∈ p, ∃ y ∈ q, y.xmin ≤ x.xmin ∧ y.ymin ≤ x.ymin ∧ x.xmax ≤ y.xmax ∧ x.ymax ≤ y.ymax

/-- The union device bound to an output device at address 1. -/
def devU : World (List Box) (List Box) ℚ := gfxdevice_union_init boxEnv (some 1)

/-! ## Heap and primitive lemmas -/

section Lemmas

variable {Line Poly Coord : Type}

@[simp] theorem dbg_eq (w : World Line Poly Coord) (s : String) : dbg w s = w := by
  simp [dbg, verbose]

theorem heapAt_append_single (h : List (Option Poly)) (x : Option Poly) (a : Nat) :
    heapAt (h ++ [x]) a = if a = h.length then x else heapAt h a := by
  unfold heapAt
  rw [List.getD_eq_getElem?_getD, List.getD_eq_getElem?_getD]
  rcases lt_trichotomy a h.length with hlt | heq | hgt
  · simp [List.getElem?_append_left hlt, Nat.ne_of_lt hlt]
  · subst heq; simp
  · have h1 : h.length ≤ a := by omega
    have h2 : (h ++ [x]).length ≤ a := by simp; omega
    simp [List.getElem?_eq_none h1, List.getElem?_eq_none h2, Nat.ne_of_gt hgt]

theorem heapAt_set_none (h : List (Option Poly)) (a b : Nat) :
    heapAt (h.set b none) a = if a = b then none else heapAt h a := by
  unfold heapAt
  rw [List.getD_eq_getElem?_getD, List.getD_eq_getElem?_getD]
  by_cases hab : a = b
  · subst hab
    simp [List.getElem?_set]
    split <;> simp
  · simp [hab, List.getElem?_set_ne (Ne.symm hab)]

theorem heapAt_some_lt {h : List (Option Poly)} {a : Nat} {v : Poly}
    (hv : heapAt h a = some v) : a < h.length := by
  unfold heapAt at hv
  rw [List.getD_eq_getElem?_getD] at hv
  by_contra hlt
  rw [List.getElem?_eq_none (by omega)] at hv
  cases hv

theorem heapAt_ge {h : List (Option Poly)} {a : Nat} (ha : h.length ≤ a) :
    heapAt h a = none := by
  unfold heapAt
  rw [List.getD_eq_getElem?_getD, List.getElem?_eq_none ha]
  rfl

theorem cell_lt {w : World Line Poly Coord} {a : Nat} {v : Poly} (h : cell w a = some v) :
    a < w.heap.length := heapAt_some_lt h

theorem clipAndForward_spec (E : Env Line Poly Coord) (w : World Line Poly Coord) (p0 : Poly)
    (mk : Line → SinkCall Line Coord)
    (hclip : ∀ c ∈ w.i.clip.head?, (cell w c).isSome)
    (hunion : ∀ u ∈ w.i.polyunion, (cell w u).isSome) :
    ∃ w', clipAndForward E (alloc w p0).1 (alloc w p0).2 mk = .ok w' ∧
      SameDevice w w' ∧ HeapKept w w' ∧ UnionAdded E w w' (clipped E w p0) ∧
      TempsReleased w w' ∧
      w'.sink = (match w.i.out with
        | some _ => w.sink ++ [mk (E.gfxpoly_to_gfxline (clipped E w p0))]
        | none => w.sink) := by
  obtain ⟨name, ⟨out, clip, pu⟩, heap, sink, err, outp⟩ := w
  cases clip with
  | nil =>
    cases pu with
    | none =>
      cases out <;>
      · simp [clipAndForward, alloc, addtounion, gfxpoly_to_gfxline, deref, gfxpoly_free, cell,
          heapAt_append_single, heapAt_set_none, bind, Except.bind, pure, Except.pure, callOut,
          SameDevice, HeapKept, UnionAdded, TempsReleased, clipped, activeClip,
          -List.append_assoc]
        refine ⟨fun a ha => ?_, fun a ha h1 => ?_⟩
        · simp [Nat.ne_of_lt ha]
        · simp [heapAt_ge ha]
    | some u =>
      simp [cell, Option.isSome_iff_exists] at hunion
      obtain ⟨vu, hvu⟩ := hunion
      have hu := heapAt_some_lt hvu
      have hu1 : u ≠ heap.length := Nat.ne_of_lt hu
      have hu2 : u ≠ heap.length + 1 := by omega
      cases out <;>
      · simp [clipAndForward, alloc, addtounion, gfxpoly_to_gfxline, gfxpoly_union, deref,
          gfxpoly_free, cell, hvu, hu1, hu2, hu1.symm, hu2.symm, -List.append_assoc,
          heapAt_append_single, heapAt_set_none, bind, Except.bind, pure, Except.pure, callOut,
          SameDevice, HeapKept, UnionAdded, TempsReleased, clipped, activeClip]
        refine ⟨⟨by omega, fun a ha hne => ?_⟩, fun a ha h1 h2 h3 => ?_⟩
        · have h4 : a ≠ heap.length := by omega
          have h5 : a ≠ heap.length + 1 := by omega
          simp [h4, h5, Ne.symm hne]
        · have h5 : a ≠ heap.length + 1 := by omega
          simp [h5, h2, heapAt_ge ha]
  | cons c rest =>
    simp [cell, Option.isSome_iff_exists] at hclip
    obtain ⟨vc, hvc⟩ := hclip
    have hc := heapAt_some_lt hvc
    have hc1 : c ≠ heap.length := Nat.ne_of_lt hc
    have hc2 : c ≠ heap.length + 1 := by omega
    cases pu with
    | none =>
      cases out <;>
      · simp [clipAndForward, alloc, addtounion, gfxpoly_to_gfxline, gfxpoly_intersect, deref,
          gfxpoly_free, cell, hvc, hc1, hc2, -List.append_assoc,
          heapAt_append_single, heapAt_set_none, bind, Except.bind, pure, Except.pure, callOut,
          SameDevice, HeapKept, UnionAdded, TempsReleased, clipped, activeClip]
        refine ⟨⟨by omega, fun a ha => ?_⟩, fun a ha h1 => ?_⟩
        · have h4 : a ≠ heap.length := by omega
          have h5 : a ≠ heap.length + 1 := by omega
          simp [h4, h5]
        · intro h2
          simp [h2, heapAt_ge ha]
    | some u =>
      simp [cell, Option.isSome_iff_exists] at hunion
      obtain ⟨vu, hvu⟩ := hunion
      have hu := heapAt_some_lt hvu
      have hu1 : u ≠ heap.length := Nat.ne_of_lt hu
      have hu2 : u ≠ heap.length + 1 := by omega
      have hu3 : u ≠ heap.length + 2 := by omega
      cases out <;>
      · simp [clipAndForward, alloc, addtounion, gfxpoly_to_gfxline, gfxpoly_union,
          gfxpoly_intersect, deref, gfxpoly_free, cell, hvu, hu1, hu2, hu3, hu1.symm, hu2.symm,
          hu3.symm, hvc, hc1, hc2, -List.append_assoc,
          heapAt_append_single, heapAt_set_none, bind, Except.bind, pure, Except.pure, callOut,
          SameDevice, HeapKept, UnionAdded, TempsReleased, clipped, activeClip]
        refine ⟨⟨by omega, fun a ha hne => ?_⟩, by omega, fun a ha h1 h2 h3 => ?_⟩
        · have h4 : a ≠ heap.length := by omega
          have h5 : a ≠ heap.length + 1 := by omega
          have h6 : a ≠ heap.length + 1 + 1 := by omega
          simp [h4, h5, h6, Ne.symm hne]
        · have h6 : a ≠ heap.length + 1 + 1 := by omega
          simp [h6, h2, heapAt_ge ha]

theorem polyops_stroke_eq (E : Env Line Poly Coord) (w : World Line Poly Coord) (line : Line)
    (width : Coord) (color : Ptr) (cap_style joint_style : Int) (miterLimit : Coord) :
    polyops_stroke E w line width color cap_style joint_style miterLimit =
      clipAndForward E
        (alloc w (E.gfxpoly_strokeToPoly line width cap_style joint_style miterLimit)).1
        (alloc w (E.gfxpoly_strokeToPoly line width cap_style joint_style miterLimit)).2
        (fun l => .fill l color) := by
  simp [polyops_stroke, clipAndForward]

theorem polyops_fillbitmap_eq (E : Env Line Poly Coord) (w : World Line Poly Coord) (line : Line)
    (img matrix cxform : Ptr) :
    polyops_fillbitmap E w line img matrix cxform =
      clipAndForward E (alloc w (E.gfxpoly_fillToPoly line)).1
        (alloc w (E.gfxpoly_fillToPoly line)).2 (fun l => .fillbitmap l img matrix cxform) := by
  simp [polyops_fillbitmap, clipAndForward]

theorem polyops_fillgradient_eq (E : Env Line Poly Coord) (w : World Line Poly Coord) (line : Line)
    (gradient : Ptr) (type : Int) (matrix : Ptr) :
    polyops_fillgradient E w line gradient type matrix =
      clipAndForward E (alloc w (E.gfxpoly_fillToPoly line)).1
        (alloc w (E.gfxpoly_fillToPoly line)).2
        (fun l => .fillgradient l gradient type matrix) := by
  simp [polyops_fillgradient, clipAndForward]

theorem polyops_fill_noclip_eq (E : Env Line Poly Coord) (w : World Line Poly Coord) (line : Line)
    (color : Ptr) (h : w.i.clip = []) :
    polyops_fill E w line color =
      clipAndForward E (alloc w (E.gfxpoly_fillToPoly line)).1
        (alloc w (E.gfxpoly_fillToPoly line)).2 (fun l => .fill l color) := by
  simp [polyops_fill, clipAndForward, alloc, h]

theorem polyops_fill_clip_error (E : Env Line Poly Coord) (w : World Line Poly Coord) (line : Line)
    (color : Ptr) (h : w.i.clip ≠ []) :
    ∃ e, polyops_fill E w line color = .error e := by
  obtain ⟨name, ⟨out, clip, pu⟩, heap, sink, err, outp⟩ := w
  cases clip with
  | nil => exact absurd rfl h
  | cons c rest =>
    cases hc : heapAt heap c with
    | none =>
      by_cases hc1 : c = heap.length
      · subst hc1
        cases pu <;>
        simp [polyops_fill, alloc, gfxpoly_intersect, deref, cell, addtounion,
          gfxpoly_free, gfxpoly_to_gfxline, gfxpoly_union, pure, Except.pure,
          heapAt_append_single, heapAt_set_none, bind, Except.bind, -List.append_assoc]
      · simp [polyops_fill, alloc, gfxpoly_intersect, deref, cell, hc, hc1,
          heapAt_append_single, bind, Except.bind, -List.append_assoc]
    | some vc =>
      have hlt := heapAt_some_lt hc
      have hc1 : c ≠ heap.length := Nat.ne_of_lt hlt
      cases pu with
      | none =>
        simp [polyops_fill, alloc, gfxpoly_intersect, deref, cell, hc, hc1, addtounion,
          gfxpoly_free, gfxpoly_to_gfxline, pure, Except.pure,
          heapAt_append_single, heapAt_set_none, bind, Except.bind, -List.append_assoc]
      | some u =>
        simp [polyops_fill, alloc, gfxpoly_intersect, deref, cell, hc, hc1, addtounion,
          gfxpoly_free, gfxpoly_to_gfxline, gfxpoly_union, pure, Except.pure,
          heapAt_append_single, heapAt_set_none, bind, Except.bind, -List.append_assoc]

theorem polyops_drawchar_clip_eq (E : Env Line Poly Coord) (w : World Line Poly Coord) (font : Ptr)
    (glyphnr : Int) (color matrix : Ptr) (c : Nat) (rest : List Nat)
    (hclip : w.i.clip = c :: rest) :
    polyops_drawchar E w (some font) glyphnr color matrix =
      (drawcharClipBox E w c (glyphBBox E font glyphnr matrix)).bind (fun r =>
        if clippedAway E r.2 then
          .ok r.1
        else if sizeChanged E (glyphBBox E font glyphnr matrix) r.2 then
          polyops_fill E r.1 (glyphLine E font glyphnr matrix) color
        else
          match r.1.i.out with
          | some _ => .ok (callOut r.1 (.drawchar font glyphnr color matrix))
          | none => .ok r.1) := by
  simp only [polyops_drawchar, drawcharClipBox, dbg_eq, hclip, alloc, glyphBBox, glyphLine,
    bind, Except.bind, pure, Except.pure]
  cases gfxpoly_intersect E _ _ c with
  | error e => rfl
  | ok r1 =>
    simp only []
    cases gfxpoly_to_gfxline E r1.1 r1.2 with
    | error e => rfl
    | ok l =>
      simp only []
      cases addtounion E r1.1 r1.2 with
      | error e => rfl
      | ok w2 => rfl

theorem drawcharClipBox_spec (E : Env Line Poly Coord) (w : World Line Poly Coord) (c : Nat)
    (rest : List Nat) (bbox : gfxbbox_t Coord)
    (hclip : w.i.clip = c :: rest) (hc : (cell w c).isSome)
    (hunion : ∀ u ∈ w.i.polyunion, (cell w u).isSome) :
    ∃ w', drawcharClipBox E w c bbox = .ok (w',
        E.gfxline_getbbox (E.gfxpoly_to_gfxline (clipped E w (boxPoly E bbox)))) ∧
      SameDevice w w' ∧ HeapKept w w' ∧ UnionAdded E w w' (clipped E w (boxPoly E bbox)) ∧
      w'.sink = w.sink := by
  obtain ⟨name, ⟨out, clip, pu⟩, heap, sink, err, outp⟩ := w
  simp only at hclip
  subst hclip
  simp [cell, Option.isSome_iff_exists] at hc
  obtain ⟨vc, hvc⟩ := hc
  have hc := heapAt_some_lt hvc
  have hc1 : c ≠ heap.length := Nat.ne_of_lt hc
  have hc2 : c ≠ heap.length + 1 := by omega
  simp only [drawcharClipBox, boxPoly]
  generalize E.gfxpoly_createbox bbox.xmin bbox.ymin bbox.xmax bbox.ymax = b
  cases pu with
  | none =>
    simp [drawcharClipBox, alloc, addtounion, gfxpoly_to_gfxline, gfxpoly_intersect, deref,
      cell, hvc, hc1, hc2, -List.append_assoc,
      heapAt_append_single, heapAt_set_none, bind, Except.bind, pure, Except.pure,
      SameDevice, HeapKept, UnionAdded, clipped, activeClip]
    refine ⟨by omega, fun a ha => ?_⟩
    have h4 : a ≠ heap.length := by omega
    have h5 : a ≠ heap.length + 1 := by omega
    simp [h4, h5]
  | some u =>
    simp [cell, Option.isSome_iff_exists] at hunion
    obtain ⟨vu, hvu⟩ := hunion
    have hu := heapAt_some_lt hvu
    have hu1 : u ≠ heap.length := Nat.ne_of_lt hu
    have hu2 : u ≠ heap.length + 1 := by omega
    have hu3 : u ≠ heap.length + 2 := by omega
    simp [drawcharClipBox, alloc, addtounion, gfxpoly_to_gfxline, gfxpoly_union,
      gfxpoly_intersect, deref, gfxpoly_free, cell, hvu, hu1, hu2, hu3, hu1.symm, hu2.symm,
      hu3.symm, hvc, hc1, hc2, -List.append_assoc,
      heapAt_append_single, heapAt_set_none, bind, Except.bind, pure, Except.pure,
      SameDevice, HeapKept, UnionAdded, clipped, activeClip]
    refine ⟨⟨by omega, fun a ha hne => ?_⟩, by omega⟩
    have h4 : a ≠ heap.length := by omega
    have h5 : a ≠ heap.length + 1 := by omega
    have h6 : a ≠ heap.length + 1 + 1 := by omega
    simp [h4, h5, h6, Ne.symm hne]

theorem startclip_spec (E : Env Line Poly Coord) (w : World Line Poly Coord) (line : Line)
    (hclip : ∀ c ∈ w.i.clip.head?, (cell w c).isSome) :
    ∃ w' p, polyops_startclip E w line = .ok w' ∧ w'.i.clip = p :: w.i.clip ∧
      w.heap.length ≤ p ∧ cell w' p = some (clipped E w (E.gfxpoly_fillToPoly line)) ∧
      w'.name = w.name ∧ w'.i.out = w.i.out ∧ w'.i.polyunion = w.i.polyunion ∧
      w'.sink = w.sink ∧ w'.stderr = w.stderr ∧ w'.stdout = w.stdout ∧
      w.heap.length ≤ w'.heap.length ∧ (∀ a, a < w.heap.length → cell w' a = cell w a) ∧
      (∀ a, w.heap.length ≤ a → a ≠ p → cell w' a = none) := by
  obtain ⟨name, ⟨out, clip, pu⟩, heap, sink, err, outp⟩ := w
  cases clip with
  | nil =>
    simp [polyops_startclip, alloc, cell, heapAt_append_single, clipped, activeClip, pure,
      Except.pure, -List.append_assoc]
    refine ⟨fun a ha => ?_, fun a ha hne => ?_⟩
    · simp [Nat.ne_of_lt ha]
    · simp [hne, heapAt_ge ha]
  | cons c rest =>
    simp [cell, Option.isSome_iff_exists] at hclip
    obtain ⟨vc, hvc⟩ := hclip
    have hc := heapAt_some_lt hvc
    have hc1 : c ≠ heap.length := Nat.ne_of_lt hc
    simp [polyops_startclip, alloc, gfxpoly_intersect, gfxpoly_free, deref, cell, hvc, hc1,
      heapAt_append_single, heapAt_set_none, clipped, activeClip, pure,
      Except.pure, bind, Except.bind, -List.append_assoc]
    refine ⟨by omega, fun a ha => ?_, fun a ha hne => ?_⟩
    · have h4 : a ≠ heap.length := by omega
      have h5 : a ≠ heap.length + 1 := by omega
      simp [h4, h5]
    · simp [hne, heapAt_ge ha]

theorem endclip_spec (w : World Line Poly Coord) (c : Nat) (rest : List Nat)
    (hclip : w.i.clip = c :: rest) (hc : (cell w c).isSome) :
    ∃ w', polyops_endclip w = .ok w' ∧ w'.i = { w.i with clip := rest } ∧
      w'.name = w.name ∧ w'.sink = w.sink ∧ w'.stderr = w.stderr ∧ w'.stdout = w.stdout ∧
      w'.heap.length = w.heap.length ∧ cell w' c = none ∧
      (∀ a, a ≠ c → cell w' a = cell w a) := by
  obtain ⟨name, ⟨out, clip, pu⟩, heap, sink, err, outp⟩ := w
  simp only at hclip
  subst hclip
  simp [cell, Option.isSome_iff_exists] at hc
  obtain ⟨vc, hvc⟩ := hc
  simp [polyops_endclip, gfxpoly_free, cell, hvc, heapAt_set_none, pure, Except.pure, bind,
    Except.bind]
  intro a ha
  simp [ha]

theorem endclip_empty (w : World Line Poly Coord) (hclip : w.i.clip = []) :
    polyops_endclip w =
      .ok { w with stderr := w.stderr ++ ["Error: endclip without startclip\n"] } := by
  simp [polyops_endclip, hclip, pure, Except.pure]

theorem WF.head
    {w : World Line Poly Coord} (h : WF w) : ∀ c ∈ w.i.clip.head?, (cell w c).isSome := by
  intro c hc
  exact h.1 c (List.mem_of_mem_head? hc)

theorem WF.union {w : World Line Poly Coord} (h : WF w) :
    ∀ u ∈ w.i.polyunion, (cell w u).isSome :=
  fun u hu => (h.2.2 u hu).1

theorem StackOK_congr (E : Env Line Poly Coord) (w w' : World Line Poly Coord) :
    ∀ (cs : List Nat) (ls : List Line), (∀ a ∈ cs, cell w' a = cell w a) →
      StackOK E w cs ls → StackOK E w' cs ls
  | [], [], _, _ => trivial
  | [], _ :: _, _, h => h.elim
  | _ :: _, [], _, h => h.elim
  | c :: cs, l :: ls, hcell, h => by
    refine ⟨?_, StackOK_congr E w w' cs ls (fun a ha => hcell a (List.mem_cons_of_mem _ ha)) h.2⟩
    rw [hcell c (List.mem_cons_self _ _)]
    exact h.1

theorem StackOK_length (E : Env Line Poly Coord) (w : World Line Poly Coord) :
    ∀ (cs : List Nat) (ls : List Line), StackOK E w cs ls → cs.length = ls.length
  | [], [], _ => rfl
  | [], _ :: _, h => h.elim
  | _ :: _, [], h => h.elim
  | _ :: cs, _ :: ls, h => by
    simp [StackOK_length E w cs ls h.2]

/-- Transfer of the invariant along a step that keeps the device record and the
heap cells outside the union. -/
theorem Inv_transfer (E : Env Line Poly Coord) (w w' : World Line Poly Coord) (ls : List Line)
    (hinv : Inv E w ls) (hsame : SameDevice w w') (hkept : HeapKept w w')
    (hun : ∀ u ∈ w'.i.polyunion, (cell w' u).isSome ∧
      (w.i.polyunion = some u ∨ w.heap.length ≤ u))
    (hsink : ∀ x ∈ w'.sink, SinkCall.isClip x = false) :
    Inv E w' ls := by
  obtain ⟨⟨hlive, hnodup, hunion⟩, hstack, _⟩ := hinv
  obtain ⟨_, _, hclip, _, _⟩ := hsame
  have hcells : ∀ a ∈ w.i.clip, cell w' a = cell w a := by
    intro a ha
    obtain ⟨v, hv⟩ := Option.isSome_iff_exists.mp (hlive a ha)
    refine hkept.2 a (cell_lt hv) ?_
    intro hu
    exact (hunion a hu).2 ha
  refine ⟨⟨?_, ?_, ?_⟩, ?_, hsink⟩
  · intro a ha
    rw [hclip] at ha
    rw [hcells a ha]
    exact hlive a ha
  · rw [hclip]; exact hnodup
  · intro u hu
    refine ⟨(hun u hu).1, ?_⟩
    rw [hclip]
    intro hmem
    rcases (hun u hu).2 with h1 | h1
    · exact (hunion u h1).2 hmem
    · obtain ⟨v, hv⟩ := Option.isSome_iff_exists.mp (hlive u hmem)
      have := cell_lt hv
      omega
  · rw [hclip]
    exact StackOK_congr E w w' _ _ hcells hstack

theorem UnionAdded_live (E : Env Line Poly Coord) (w w' : World Line Poly Coord) (v : Poly)
    (hw : ∀ u ∈ w.i.polyunion, (cell w u).isSome) (h : UnionAdded E w w' v) :
    ∀ u ∈ w'.i.polyunion, (cell w' u).isSome ∧ (w.i.polyunion = some u ∨ w.heap.length ≤ u) := by
  intro u' hu'
  unfold UnionAdded at h
  cases hpu : w.i.polyunion with
  | none =>
    rw [hpu] at h
    simp only at h
    rw [h] at hu'
    cases hu'
  | some u =>
    rw [hpu] at h
    simp only at h
    obtain ⟨u'', h1, h2, h3, _⟩ := h
    rw [h1] at hu'
    cases hu'
    obtain ⟨vu, hvu⟩ := Option.isSome_iff_exists.mp (hw u hpu)
    rw [hvu] at h3
    exact ⟨by rw [h3]; rfl, Or.inr h2⟩

theorem Inv_callOut (E : Env Line Poly Coord) (w : World Line Poly Coord) (ls : List Line)
    (x : SinkCall Line Coord) (hx : SinkCall.isClip x = false) (hinv : Inv E w ls) :
    Inv E (callOut w x) ls := by
  obtain ⟨hwf, hstack, hsink⟩ := hinv
  refine ⟨hwf, StackOK_congr E w _ _ _ (fun _ _ => rfl) hstack, ?_⟩
  intro y hy
  simp only [callOut, List.mem_append, List.mem_singleton] at hy
  rcases hy with hy | hy
  · exact hsink y hy
  · rw [hy]; exact hx

theorem Inv_forward (E : Env Line Poly Coord) (w : World Line Poly Coord) (ls : List Line)
    (x : SinkCall Line Coord) (hx : SinkCall.isClip x = false) (hinv : Inv E w ls) :
    Inv E (match w.i.out with
      | some _ => callOut w x
      | none => w) ls := by
  cases w.i.out with
  | none => exact hinv
  | some o => exact Inv_callOut E w ls x hx hinv

theorem clipAndForward_inv (E : Env Line Poly Coord) (w w' : World Line Poly Coord) (ls : List Line)
    (p0 : Poly) (mk : Line → SinkCall Line Coord) (hmk : ∀ l, SinkCall.isClip (mk l) = false)
    (hinv : Inv E w ls)
    (h : clipAndForward E (alloc w p0).1 (alloc w p0).2 mk = .ok w') : Inv E w' ls := by
  obtain ⟨w2, h2, hsame, hkept, hun, _, hsink⟩ :=
    clipAndForward_spec E w p0 mk hinv.1.head hinv.1.union
  rw [h2] at h
  cases h
  refine Inv_transfer E w w' ls hinv hsame hkept (UnionAdded_live E w w' _ hinv.1.union hun) ?_
  intro x hx
  rw [hsink] at hx
  cases hout : w.i.out with
  | none =>
    rw [hout] at hx
    exact hinv.2.2 x hx
  | some o =>
    rw [hout] at hx
    simp only [List.mem_append, List.mem_singleton] at hx
    rcases hx with hx | hx
    · exact hinv.2.2 x hx
    · rw [hx]; exact hmk _

theorem startclip_inv (E : Env Line Poly Coord) (w w' : World Line Poly Coord) (ls : List Line)
    (line : Line) (hinv : Inv E w ls) (h : polyops_startclip E w line = .ok w') :
    Inv E w' (line :: ls) := by
  obtain ⟨w2, p, h2, hclip, hp, hcp, _, _, hpu, hsink, _, _, hlen, hold, _⟩ :=
    startclip_spec E w line hinv.1.head
  rw [h2] at h
  cases h
  obtain ⟨⟨hlive, hnodup, hunion⟩, hstack, hnoclip⟩ := hinv
  have hlt : ∀ a ∈ w.i.clip, a < w.heap.length := by
    intro a ha
    obtain ⟨v, hv⟩ := Option.isSome_iff_exists.mp (hlive a ha)
    exact cell_lt hv
  have hcells : ∀ a ∈ w.i.clip, cell w' a = cell w a := fun a ha => hold a (hlt a ha)
  refine ⟨⟨?_, ?_, ?_⟩, ?_, ?_⟩
  · intro a ha
    rw [hclip] at ha
    rcases List.mem_cons.mp ha with ha | ha
    · rw [ha, hcp]; rfl
    · rw [hcells a ha]; exact hlive a ha
  · rw [hclip]
    refine List.nodup_cons.mpr ⟨?_, hnodup⟩
    intro hmem
    have := hlt p hmem
    omega
  · intro u hu
    rw [hpu] at hu
    obtain ⟨v, hv⟩ := Option.isSome_iff_exists.mp (hunion u hu).1
    have hul := cell_lt hv
    refine ⟨?_, ?_⟩
    · rw [hold u hul, hv]; rfl
    · rw [hclip]
      intro hmem
      rcases List.mem_cons.mp hmem with hm | hm
      · omega
      · exact (hunion u hu).2 hm
  · rw [hclip]
    refine ⟨?_, StackOK_congr E w w' _ _ hcells hstack⟩
    rw [hcp]
    cases hcl : w.i.clip with
    | nil =>
      rw [hcl] at hstack
      cases ls with
      | nil => simp [clipped, activeClip, hcl, nestedPoly]
      | cons l ls => exact hstack.elim
    | cons c rest =>
      rw [hcl] at hstack
      cases ls with
      | nil => exact hstack.elim
      | cons l ls => simp [clipped, activeClip, hcl, nestedPoly, hstack.1]
  · rw [hsink]; exact hnoclip

theorem endclip_inv (E : Env Line Poly Coord) (w w' : World Line Poly Coord) (ls : List Line)
    (hinv : Inv E w ls) (h : polyops_endclip w = .ok w') : Inv E w' ls.tail := by
  cases hcl : w.i.clip with
  | nil =>
    rw [endclip_empty w hcl] at h
    cases h
    obtain ⟨hwf, hstack, hnoclip⟩ := hinv
    have hls : ls = [] := by
      rw [hcl] at hstack
      cases ls with
      | nil => rfl
      | cons l ls => exact hstack.elim
    subst hls
    exact ⟨hwf, StackOK_congr E w _ _ _ (fun _ _ => rfl) hstack, hnoclip⟩
  | cons c rest =>
    obtain ⟨⟨hlive, hnodup, hunion⟩, hstack, hnoclip⟩ := hinv
    obtain ⟨w2, h2, hi, _, hsink, _, _, hlen, _, hold⟩ :=
      endclip_spec w c rest hcl (hlive c (by rw [hcl]; exact List.mem_cons_self _ _))
    rw [h2] at h
    cases h
    rw [hcl] at hnodup hstack
    have hc : c ∉ rest := (List.nodup_cons.mp hnodup).1
    have hcells : ∀ a ∈ rest, cell w' a = cell w a := by
      intro a ha
      exact hold a (fun h => hc (h ▸ ha))
    have hclip2 : w'.i.clip = rest := by rw [hi]
    have hpu2 : w'.i.polyunion = w.i.polyunion := by rw [hi]
    cases ls with
    | nil => exact hstack.elim
    | cons l ls =>
      refine ⟨⟨?_, ?_, ?_⟩, ?_, ?_⟩
      · intro a ha
        rw [hclip2] at ha
        rw [hcells a ha]
        exact hlive a (by rw [hcl]; exact List.mem_cons_of_mem _ ha)
      · rw [hclip2]; exact (List.nodup_cons.mp hnodup).2
      · intro u hu
        rw [hpu2] at hu
        have hu2 := hunion u hu
        rw [hcl] at hu2
        have hne : u ≠ c := fun h => hu2.2 (h ▸ List.mem_cons_self _ _)
        refine ⟨by rw [hold u hne]; exact hu2.1, ?_⟩
        rw [hclip2]
        exact fun hm => hu2.2 (List.mem_cons_of_mem _ hm)
      · rw [hclip2]
        exact StackOK_congr E w w' _ _ hcells hstack.2
      · rw [hsink]; exact hnoclip

theorem drawchar_inv (E : Env Line Poly Coord) (w w' : World Line Poly Coord) (ls : List Line)
    (font : Option Ptr) (glyphnr : Int) (color matrix : Ptr) (hinv : Inv E w ls)
    (h : polyops_drawchar E w font glyphnr color matrix = .ok w') : Inv E w' ls := by
  cases font with
  | none =>
    simp only [polyops_drawchar, dbg_eq, pure, Except.pure] at h
    cases h
    exact hinv
  | some f =>
    cases hcl : w.i.clip with
    | nil =>
      simp only [polyops_drawchar, dbg_eq, hcl, pure, Except.pure] at h
      cases hout : w.i.out with
      | none =>
        rw [hout] at h
        cases h
        exact hinv
      | some o =>
        rw [hout] at h
        cases h
        exact Inv_callOut E w ls _ rfl hinv
    | cons c rest =>
      rw [polyops_drawchar_clip_eq E w f glyphnr color matrix c rest hcl] at h
      obtain ⟨w1, h1, hsame, hkept, hun, hsink⟩ :=
        drawcharClipBox_spec E w c rest (glyphBBox E f glyphnr matrix) hcl
          (hinv.1.1 c (by rw [hcl]; exact List.mem_cons_self _ _)) hinv.1.union
      have hinv1 : Inv E w1 ls :=
        Inv_transfer E w w1 ls hinv hsame hkept (UnionAdded_live E w w1 _ hinv.1.union hun)
          (by rw [hsink]; exact hinv.2.2)
      rw [h1] at h
      simp only [Except.bind] at h
      split at h
      · cases h
        exact hinv1
      · split at h
        · obtain ⟨e, he⟩ := polyops_fill_clip_error E w1 (glyphLine E f glyphnr matrix) color
            (by rw [hsame.2.2.1, hcl]; exact List.cons_ne_nil _ _)
          rw [he] at h
          cases h
        · cases hout : w1.i.out with
          | none =>
            rw [hout] at h
            cases h
            exact hinv1
          | some o =>
            rw [hout] at h
            cases h
            exact Inv_callOut E w1 ls _ rfl hinv1

theorem exec_inv (E : Env Line Poly Coord) (w : World Line Poly Coord) (c : Cmd Line Coord)
    (r : World Line Poly Coord × Ret) (ls : List Line) (hinv : Inv E w ls)
    (h : exec E w c = .ok r) : Inv E r.1 (openClips [c] ls) := by
  cases c with
  | setparameter key value =>
    simp only [exec, pure, Except.pure, polyops_setparameter, dbg_eq] at h
    cases h
    simp only [openClips]
    cases hout : w.i.out with
    | none => simpa [hout] using hinv
    | some o => simpa [hout] using Inv_callOut E w ls (.setparameter key value) rfl hinv
  | startpage width height =>
    simp only [exec, pure, Except.pure, polyops_startpage, dbg_eq] at h
    cases h
    exact Inv_forward E w ls _ rfl hinv
  | startclip line =>
    simp only [exec, pure, Except.pure, bind, Except.bind] at h
    cases h1 : polyops_startclip E w line with
    | error e => rw [h1] at h; cases h
    | ok w1 =>
      rw [h1] at h
      cases h
      exact startclip_inv E w w1 ls line hinv h1
  | endclip =>
    simp only [exec, pure, Except.pure, bind, Except.bind] at h
    cases h1 : polyops_endclip w with
    | error e => rw [h1] at h; cases h
    | ok w1 =>
      rw [h1] at h
      cases h
      exact endclip_inv E w w1 ls hinv h1
  | stroke line width color cap_style joint_style miterLimit =>
    simp only [exec, pure, Except.pure, bind, Except.bind] at h
    cases h1 : polyops_stroke E w line width color cap_style joint_style miterLimit with
    | error e => rw [h1] at h; cases h
    | ok w1 =>
      rw [h1] at h
      cases h
      rw [polyops_stroke_eq] at h1
      exact clipAndForward_inv E w w1 ls _ (fun l => .fill l color) (fun _ => rfl) hinv h1
  | fill line color =>
    simp only [exec, pure, Except.pure, bind, Except.bind] at h
    cases h1 : polyops_fill E w line color with
    | error e => rw [h1] at h; cases h
    | ok w1 =>
      rw [h1] at h
      cases h
      by_cases hcl : w.i.clip = []
      · rw [polyops_fill_noclip_eq E w line color hcl] at h1
        exact clipAndForward_inv E w w1 ls _ (fun l => .fill l color) (fun _ => rfl) hinv h1
      · obtain ⟨e, he⟩ := polyops_fill_clip_error E w line color hcl
        rw [he] at h1
        cases h1
  | fillbitmap line img matrix cxform =>
    simp only [exec, pure, Except.pure, bind, Except.bind] at h
    cases h1 : polyops_fillbitmap E w line img matrix cxform with
    | error e => rw [h1] at h; cases h
    | ok w1 =>
      rw [h1] at h
      cases h
      rw [polyops_fillbitmap_eq] at h1
      exact clipAndForward_inv E w w1 ls _ (fun l => .fillbitmap l img matrix cxform)
        (fun _ => rfl) hinv h1
  | fillgradient line gradient type matrix =>
    simp only [exec, pure, Except.pure, bind, Except.bind] at h
    cases h1 : polyops_fillgradient E w line gradient type matrix with
    | error e => rw [h1] at h; cases h
    | ok w1 =>
      rw [h1] at h
      cases h
      rw [polyops_fillgradient_eq] at h1
      exact clipAndForward_inv E w w1 ls _ (fun l => .fillgradient l gradient type matrix)
        (fun _ => rfl) hinv h1
  | addfont font =>
    simp only [exec, pure, Except.pure, polyops_addfont, dbg_eq] at h
    cases h
    exact Inv_forward E w ls _ rfl hinv
  | drawchar font glyphnr color matrix =>
    simp only [exec, pure, Except.pure, bind, Except.bind] at h
    cases h1 : polyops_drawchar E w font glyphnr color matrix with
    | error e => rw [h1] at h; cases h
    | ok w1 =>
      rw [h1] at h
      cases h
      exact drawchar_inv E w w1 ls font glyphnr color matrix hinv h1
  | drawlink line action =>
    simp only [exec, pure, Except.pure, polyops_drawlink, dbg_eq] at h
    cases h
    exact Inv_forward E w ls _ rfl hinv
  | endpage =>
    simp only [exec, pure, Except.pure, polyops_endpage, dbg_eq] at h
    cases h
    exact Inv_forward E w ls _ rfl hinv
  | finish =>
    simp only [exec, pure, Except.pure, polyops_finish, dbg_eq] at h
    cases h
    simp only [openClips]
    cases hout : w.i.out with
    | none => simpa [hout] using hinv
    | some o => simpa [hout] using Inv_callOut E w ls .finish rfl hinv

theorem openClips_cons (c : Cmd Line Coord) (cs : List (Cmd Line Coord)) (ls : List Line) :
    openClips (c :: cs) ls = openClips cs (openClips [c] ls) := by
  cases c <;> simp [openClips]

theorem run_inv (E : Env Line Poly Coord) :
    ∀ (cs : List (Cmd Line Coord)) (w w' : World Line Poly Coord) (ls : List Line),
      Inv E w ls → run E w cs = .ok w' → Inv E w' (openClips cs ls)
  | [], w, w', ls, hinv, h => by
    simp only [run, pure, Except.pure] at h
    cases h
    exact hinv
  | c :: cs, w, w', ls, hinv, h => by
    simp only [run, bind, Except.bind] at h
    cases h1 : exec E w c with
    | error e => rw [h1] at h; cases h
    | ok r =>
      rw [h1] at h
      rw [openClips_cons]
      exact run_inv E cs r.1 w' _ (exec_inv E w c r ls hinv h1) h

theorem runGood_inv (E : Env Line Poly Coord) :
    ∀ (cs : List (Cmd Line Coord)) (w : World Line Poly Coord) (ls : List Line),
      Inv E w ls → ∃ ls', Inv E (runGood E w cs) ls'
  | [], w, ls, hinv => ⟨ls, hinv⟩
  | c :: cs, w, ls, hinv => by
    simp only [runGood]
    cases h1 : exec E w c with
    | error e => exact ⟨ls, hinv⟩
    | ok r => exact runGood_inv E cs r.1 _ (exec_inv E w c r ls hinv h1)

theorem Inv_removeclippings_init (E : Env Line Poly Coord) (out : Option Ptr) :
    Inv E (gfxdevice_removeclippings_init out : World Line Poly Coord) [] := by
  simp [Inv, WF, StackOK, gfxdevice_removeclippings_init]

theorem Inv_union_init (E : Env Line Poly Coord) (out : Option Ptr) :
    Inv E (gfxdevice_union_init E out) [] := by
  simp [Inv, WF, StackOK, gfxdevice_union_init, alloc, cell, heapAt]

theorem run_append (E : Env Line Poly Coord) :
    ∀ (a b : List (Cmd Line Coord)) (w : World Line Poly Coord),
      run E w (a ++ b) = (run E w a).bind (fun w1 => run E w1 b)
  | [], b, w => rfl
  | c :: a, b, w => by
    simp only [List.cons_append, run, bind, Except.bind]
    cases exec E w c with
    | error e => rfl
    | ok r => exact run_append E a b r.1

theorem exec_startclip (E : Env Line Poly Coord) (w w' : World Line Poly Coord) (l : Line)
    (h : polyops_startclip E w l = .ok w') : exec E w (.startclip l) = .ok (w', .void) := by
  simp [exec, h, bind, Except.bind, pure, Except.pure]

theorem exec_endclip (E : Env Line Poly Coord) (w w' : World Line Poly Coord)
    (h : polyops_endclip w = .ok w') : exec E w .endclip = .ok (w', .void) := by
  simp [exec, h, bind, Except.bind, pure, Except.pure]

theorem push_pop (E : Env Line Poly Coord) :
    ∀ (ls : List Line) (w : World Line Poly Coord), (∀ c ∈ w.i.clip.head?, (cell w c).isSome) →
      ∃ w', run E w (ls.map Cmd.startclip ++ List.replicate ls.length Cmd.endclip) = .ok w' ∧
        w'.i = w.i ∧ w'.name = w.name ∧ w'.sink = w.sink ∧ w'.stderr = w.stderr ∧
        w'.stdout = w.stdout ∧ w.heap.length ≤ w'.heap.length ∧
        (∀ a, a < w.heap.length → cell w' a = cell w a) ∧
        (∀ a, w.heap.length ≤ a → cell w' a = none)
  | [], w, _ => ⟨w, rfl, rfl, rfl, rfl, rfl, rfl, le_refl _, fun _ _ => rfl,
      fun _ ha => heapAt_ge ha⟩
  | l :: ls, w, hw => by
    obtain ⟨w1, p, h1, hclip1, hp, hcp, hn1, ho1, hu1, hs1, he1, hso1, hlen1, hold1, hnew1⟩ :=
      startclip_spec E w l hw
    have hplt : p < w1.heap.length := cell_lt hcp
    obtain ⟨w2, h2, hi2, hn2, hs2, he2, hso2, hlen2, hold2, hnew2⟩ := push_pop E ls w1 (by
      intro c hc
      rw [hclip1] at hc
      cases hc
      rw [hcp]; rfl)
    have hcp2 : cell w2 p = some (clipped E w (E.gfxpoly_fillToPoly l)) := by
      rw [hold2 p hplt, hcp]
    obtain ⟨w3, h3, hi3, hn3, hs3, he3, hso3, hlen3, hc3, hold3⟩ :=
      endclip_spec w2 p w.i.clip (by rw [hi2, hclip1]) (by rw [hcp2]; rfl)
    refine ⟨w3, ?_, ?_, ?_, ?_, ?_, ?_, ?_, ?_, ?_⟩
    · have hlist : ((l :: ls).map Cmd.startclip ++ List.replicate (l :: ls).length Cmd.endclip :
            List (Cmd Line Coord))
          = Cmd.startclip l ::
            ((ls.map Cmd.startclip ++ List.replicate ls.length Cmd.endclip) ++ [Cmd.endclip]) := by
        simp [List.replicate_succ']
      rw [hlist]
      simp only [run, exec_startclip E w w1 l h1, bind, Except.bind]
      rw [run_append, h2]
      simp only [Except.bind, run, exec_endclip E w2 w3 h3, bind, pure, Except.pure]
    · rw [hi3, hi2]
      cases hw1 : w1.i with
      | mk o c u =>
        cases hw0 : w.i with
        | mk o0 c0 u0 =>
          rw [hw1] at ho1 hu1
          rw [hw0] at ho1 hu1
          simp only at ho1 hu1
          simp [ho1, hu1]
    · rw [hn3, hn2, hn1]
    · rw [hs3, hs2, hs1]
    · rw [he3, he2, he1]
    · rw [hso3, hso2, hso1]
    · omega
    · intro a ha
      have hne : a ≠ p := by omega
      rw [hold3 a hne, hold2 a (by omega), hold1 a ha]
    · intro a ha
      by_cases hap : a = p
      · rw [hap]; exact hc3
      · rw [hold3 a hap]
        by_cases ha1 : a < w1.heap.length
        · rw [hold2 a ha1]
          exact hnew1 a ha hap
        · exact hnew2 a (by omega)

theorem devClip_reachable : run boxEnv dev0 [.startclip (rect 0 0 10 10)] = .ok devClip := by
  rfl

theorem WF_devClip : WF devClip := by
  simp [WF, devClip, cell, heapAt]

theorem free_setStderr (s : List String) (w : World Line Poly Coord) (a : Nat) :
    gfxpoly_free (setStderr s w) a = (setStderr s) <$> gfxpoly_free w a := by
  simp only [gfxpoly_free, cell, setStderr]
  cases heapAt w.heap a <;> rfl

theorem intersect_setStderr (E : Env Line Poly Coord) (s : List String) (w : World Line Poly Coord)
    (p q : Nat) :
    gfxpoly_intersect E (setStderr s w) p q =
      (fun r => (setStderr s r.1, r.2)) <$> gfxpoly_intersect E w p q := by
  simp only [gfxpoly_intersect, deref, cell, setStderr]
  cases heapAt w.heap p <;> cases heapAt w.heap q <;> rfl

theorem union_setStderr (E : Env Line Poly Coord) (s : List String) (w : World Line Poly Coord)
    (p q : Nat) :
    gfxpoly_union E (setStderr s w) p q =
      (fun r => (setStderr s r.1, r.2)) <$> gfxpoly_union E w p q := by
  simp only [gfxpoly_union, deref, cell, setStderr]
  cases heapAt w.heap p <;> cases heapAt w.heap q <;> rfl

theorem to_gfxline_setStderr (E : Env Line Poly Coord) (s : List String) (w : World Line Poly Coord)
    (p : Nat) : gfxpoly_to_gfxline E (setStderr s w) p = gfxpoly_to_gfxline E w p := rfl

theorem addtounion_setStderr (E : Env Line Poly Coord) (s : List String) (w : World Line Poly Coord)
    (p : Nat) : addtounion E (setStderr s w) p = (setStderr s) <$> addtounion E w p := by
  unfold addtounion
  cases hpu : w.i.polyunion with
  | none => simp [setStderr, hpu]
  | some u =>
    have : (setStderr s w).i.polyunion = some u := hpu
    simp only [this, union_setStderr]
    cases gfxpoly_union E w p u with
    | error e => rfl
    | ok r =>
      simp only [Functor.map, Except.map, bind, Except.bind]
      exact free_setStderr s { r.1 with i := { r.1.i with polyunion := some r.2 } } u

theorem forwardTail_setStderr (E : Env Line Poly Coord) (s : List String)
    (w : World Line Poly Coord)
    (p : Nat) (mk : Line → SinkCall Line Coord) :
    (do
      let w1 ← addtounion E (setStderr s w) p
      let gfxline ← gfxpoly_to_gfxline E w1 p
      let w2 := (match w1.i.out with
        | some _ => callOut w1 (mk gfxline)
        | none => w1)
      gfxpoly_free w2 p) =
    (setStderr s) <$> (do
      let w1 ← addtounion E w p
      let gfxline ← gfxpoly_to_gfxline E w1 p
      let w2 := (match w1.i.out with
        | some _ => callOut w1 (mk gfxline)
        | none => w1)
      gfxpoly_free w2 p) := by
  rw [addtounion_setStderr]
  cases addtounion E w p with
  | error e => rfl
  | ok w1 =>
    simp only [Functor.map, Except.map, bind, Except.bind]
    rw [to_gfxline_setStderr]
    cases gfxpoly_to_gfxline E w1 p with
    | error e => rfl
    | ok l =>
      simp only []
      have h1 : (setStderr s w1).i.out = w1.i.out := rfl
      rw [h1]
      cases w1.i.out with
      | none => exact free_setStderr s w1 p
      | some o => exact free_setStderr s (callOut w1 (mk l)) p

theorem clipAndForward_setStderr (E : Env Line Poly Coord) (s : List String)
    (w : World Line Poly Coord)
    (p : Nat) (mk : Line → SinkCall Line Coord) :
    clipAndForward E (setStderr s w) p mk = (setStderr s) <$> clipAndForward E w p mk := by
  unfold clipAndForward
  have h1 : (setStderr s w).i.clip = w.i.clip := rfl
  rw [h1]
  cases w.i.clip with
  | nil => exact forwardTail_setStderr E s w p mk
  | cons c rest =>
    simp only [intersect_setStderr]
    cases gfxpoly_intersect E w p c with
    | error e => rfl
    | ok r =>
      simp only [Functor.map, Except.map, bind, Except.bind]
      rw [free_setStderr]
      cases gfxpoly_free r.1 p with
      | error e => rfl
      | ok w2 => exact forwardTail_setStderr E s w2 r.2 mk

theorem polyops_fill_setStderr (E : Env Line Poly Coord) (s : List String)
    (w : World Line Poly Coord)
    (line : Line) (color : Ptr) :
    polyops_fill E (setStderr s w) line color = (setStderr s) <$> polyops_fill E w line color := by
  unfold polyops_fill
  simp only [dbg_eq]
  have h0 : alloc (setStderr s w) (E.gfxpoly_fillToPoly line) =
      (setStderr s (alloc w (E.gfxpoly_fillToPoly line)).1,
        (alloc w (E.gfxpoly_fillToPoly line)).2) := rfl
  rw [h0]
  simp only []
  have h1 : (setStderr s (alloc w (E.gfxpoly_fillToPoly line)).1).i.clip =
      (alloc w (E.gfxpoly_fillToPoly line)).1.i.clip := rfl
  rw [h1]
  cases (alloc w (E.gfxpoly_fillToPoly line)).1.i.clip with
  | nil => exact forwardTail_setStderr E s _ _ (fun l => .fill l color)
  | cons c rest =>
    simp only [intersect_setStderr]
    cases gfxpoly_intersect E (alloc w (E.gfxpoly_fillToPoly line)).1
        (alloc w (E.gfxpoly_fillToPoly line)).2 c with
    | error e => rfl
    | ok r =>
      simp only [Functor.map, Except.map, bind, Except.bind]
      rw [free_setStderr]
      cases gfxpoly_free r.1 r.2 with
      | error e => rfl
      | ok w2 => exact forwardTail_setStderr E s w2 r.2 (fun l => .fill l color)

theorem drawcharClipBox_setStderr (E : Env Line Poly Coord) (s : List String)
    (w : World Line Poly Coord)
    (c : Nat) (bbox : gfxbbox_t Coord) :
    drawcharClipBox E (setStderr s w) c bbox =
      (fun r => (setStderr s r.1, r.2)) <$> drawcharClipBox E w c bbox := by
  unfold drawcharClipBox
  have h0 : ∀ v, alloc (setStderr s w) v = (setStderr s (alloc w v).1, (alloc w v).2) :=
    fun _ => rfl
  rw [h0]
  simp only [intersect_setStderr]
  cases gfxpoly_intersect E (alloc w _).1 (alloc w _).2 c with
  | error e => rfl
  | ok r =>
    simp only [Functor.map, Except.map, bind, Except.bind]
    rw [to_gfxline_setStderr]
    cases gfxpoly_to_gfxline E r.1 r.2 with
    | error e => rfl
    | ok l =>
      simp only []
      rw [addtounion_setStderr]
      cases addtounion E r.1 r.2 with
      | error e => rfl
      | ok w2 => rfl

theorem polyops_drawchar_setStderr (E : Env Line Poly Coord) (s : List String)
    (w : World Line Poly Coord)
    (font : Option Ptr) (glyphnr : Int) (color matrix : Ptr) :
    polyops_drawchar E (setStderr s w) font glyphnr color matrix =
      (setStderr s) <$> polyops_drawchar E w font glyphnr color matrix := by
  cases font with
  | none => rfl
  | some f =>
    cases hcl : w.i.clip with
    | nil =>
      have h1 : (setStderr s w).i.clip = [] := hcl
      simp only [polyops_drawchar, dbg_eq, hcl, h1]
      have h2 : (setStderr s w).i.out = w.i.out := rfl
      rw [h2]
      cases w.i.out <;> rfl
    | cons c rest =>
      rw [polyops_drawchar_clip_eq E w f glyphnr color matrix c rest hcl,
        polyops_drawchar_clip_eq E (setStderr s w) f glyphnr color matrix c rest hcl,
        drawcharClipBox_setStderr]
      cases drawcharClipBox E w c (glyphBBox E f glyphnr matrix) with
      | error e => rfl
      | ok r =>
        simp only [Functor.map, Except.map, Except.bind]
        split
        · rfl
        · split
          · exact polyops_fill_setStderr E s r.1 _ color
          · have h2 : (setStderr s r.1).i.out = r.1.i.out := rfl
            rw [h2]
            cases r.1.i.out <;> rfl

theorem polyops_startclip_setStderr (E : Env Line Poly Coord) (s : List String)
    (w : World Line Poly Coord)
    (line : Line) :
    polyops_startclip E (setStderr s w) line = (setStderr s) <$> polyops_startclip E w line := by
  unfold polyops_startclip
  simp only [dbg_eq]
  have h0 : alloc (setStderr s w) (E.gfxpoly_fillToPoly line) =
      (setStderr s (alloc w (E.gfxpoly_fillToPoly line)).1,
        (alloc w (E.gfxpoly_fillToPoly line)).2) := rfl
  rw [h0]
  simp only []
  have h1 : (setStderr s (alloc w (E.gfxpoly_fillToPoly line)).1).i.clip =
      (alloc w (E.gfxpoly_fillToPoly line)).1.i.clip := rfl
  rw [h1]
  cases (alloc w (E.gfxpoly_fillToPoly line)).1.i.clip with
  | nil => rfl
  | cons c rest =>
    simp only [intersect_setStderr]
    cases gfxpoly_intersect E (alloc w (E.gfxpoly_fillToPoly line)).1
        (alloc w (E.gfxpoly_fillToPoly line)).2 c with
    | error e => rfl
    | ok r =>
      simp only [Functor.map, Except.map, bind, Except.bind]
      exact free_setStderr s { r.1 with i := { r.1.i with clip := r.2 :: c :: rest } } _

theorem polyops_endclip_setStderr (s : List String) (w : World Line Poly Coord)
    (h : w.i.clip ≠ []) :
    polyops_endclip (setStderr s w) = (setStderr s) <$> polyops_endclip w := by
  unfold polyops_endclip
  simp only [dbg_eq]
  have h1 : (setStderr s w).i.clip = w.i.clip := rfl
  rw [h1]
  cases hcl : w.i.clip with
  | nil => exact absurd hcl h
  | cons c rest =>
    exact free_setStderr s { w with i := { w.i with clip := rest } } c

/-- The diagnostics written by one command: stderr is only ever appended to, and
only by an unmatched endclip. -/
theorem exec_setStderr (E : Env Line Poly Coord) (s : List String) (w : World Line Poly Coord)
    (c : Cmd Line Coord) (hc : c ≠ .endclip ∨ w.i.clip ≠ []) :
    exec E (setStderr s w) c = (fun r => (setStderr s r.1, r.2)) <$> exec E w c := by
  have hout : (setStderr s w).i.out = w.i.out := rfl
  cases c with
  | setparameter key value =>
    simp only [exec, polyops_setparameter, dbg_eq, hout]
    cases w.i.out <;> rfl
  | startpage width height =>
    simp only [exec, polyops_startpage, dbg_eq, hout]
    cases w.i.out <;> rfl
  | startclip line =>
    simp only [exec, polyops_startclip_setStderr]
    cases polyops_startclip E w line <;> rfl
  | endclip =>
    have h : w.i.clip ≠ [] := by
      rcases hc with hc | hc
      · exact absurd rfl hc
      · exact hc
    simp only [exec, polyops_endclip_setStderr s w h]
    cases polyops_endclip w <;> rfl
  | stroke line width color cap_style joint_style miterLimit =>
    have h0 : ∀ v, alloc (setStderr s w) v = (setStderr s (alloc w v).1, (alloc w v).2) :=
      fun _ => rfl
    simp only [exec, polyops_stroke_eq, h0, clipAndForward_setStderr]
    cases clipAndForward E _ _ _ <;> rfl
  | fill line color =>
    simp only [exec, polyops_fill_setStderr]
    cases polyops_fill E w line color <;> rfl
  | fillbitmap line img matrix cxform =>
    have h0 : ∀ v, alloc (setStderr s w) v = (setStderr s (alloc w v).1, (alloc w v).2) :=
      fun _ => rfl
    simp only [exec, polyops_fillbitmap_eq, h0, clipAndForward_setStderr]
    cases clipAndForward E _ _ _ <;> rfl
  | fillgradient line gradient type matrix =>
    have h0 : ∀ v, alloc (setStderr s w) v = (setStderr s (alloc w v).1, (alloc w v).2) :=
      fun _ => rfl
    simp only [exec, polyops_fillgradient_eq, h0, clipAndForward_setStderr]
    cases clipAndForward E _ _ _ <;> rfl
  | addfont font =>
    simp only [exec, polyops_addfont, dbg_eq, hout]
    cases w.i.out <;> rfl
  | drawchar font glyphnr color matrix =>
    simp only [exec, polyops_drawchar_setStderr]
    cases polyops_drawchar E w font glyphnr color matrix <;> rfl
  | drawlink line action =>
    simp only [exec, polyops_drawlink, dbg_eq, hout]
    cases w.i.out <;> rfl
  | endpage =>
    simp only [exec, polyops_endpage, dbg_eq, hout]
    cases w.i.out <;> rfl
  | finish =>
    simp only [exec, polyops_finish, dbg_eq, hout]
    cases w.i.out <;> rfl

theorem exec_stderr_kept (E : Env Line Poly Coord) (w : World Line Poly Coord) (c : Cmd Line Coord)
    (r : World Line Poly Coord × Ret) (hc : c ≠ .endclip ∨ w.i.clip ≠ [])
    (h : exec E w c = .ok r) : r.1.stderr = w.stderr := by
  have h1 := exec_setStderr E w.stderr w c hc
  have h2 : setStderr w.stderr w = w := rfl
  rw [h2, h] at h1
  simp only [Functor.map, Except.map] at h1
  have h3 := congrArg (fun x => x.1.stderr) (Except.ok.inj h1)
  exact h3

theorem devClip2_reachable :
    run boxEnv (gfxdevice_removeclippings_init (some 1))
      [.startclip (rect 0 0 10 10), .startclip (rect 5 5 15 15)] = .ok devClip2 := by
  rfl

theorem activeClip_of_StackOK (E : Env Line Poly Coord) (w : World Line Poly Coord) (ls : List Line)
    (h : StackOK E w w.i.clip ls) : activeClip w = nestedIntersect E ls := by
  unfold activeClip
  cases hcl : w.i.clip with
  | nil =>
    rw [hcl] at h
    cases ls with
    | nil => rfl
    | cons l ls => exact h.elim
  | cons c rest =>
    rw [hcl] at h
    cases ls with
    | nil => exact h.elim
    | cons l ls => exact h.1

/-- The clip branch of `polyops_drawchar` in a well-formed state: the common
part succeeds, and the three-way decision is taken on `clippedBBox`. -/
theorem drawchar_clip_branches (E : Env Line Poly Coord) (w : World Line Poly Coord) (hw : WF w)
    (hact : w.i.clip ≠ []) (font : Ptr) (glyphnr : Int) (color matrix : Ptr) :
    ∃ w1, SameDevice w w1 ∧ HeapKept w w1 ∧
      UnionAdded E w w1 (clipped E w (boxPoly E (glyphBBox E font glyphnr matrix))) ∧
      w1.sink = w.sink ∧
      polyops_drawchar E w (some font) glyphnr color matrix =
        (if clippedAway E (clippedBBox E w font glyphnr matrix) then
          .ok w1
        else if sizeChanged E (glyphBBox E font glyphnr matrix)
            (clippedBBox E w font glyphnr matrix) then
          polyops_fill E w1 (glyphLine E font glyphnr matrix) color
        else
          match w1.i.out with
          | some _ => .ok (callOut w1 (.drawchar font glyphnr color matrix))
          | none => .ok w1) := by
  cases hcl : w.i.clip with
  | nil => exact absurd hcl hact
  | cons c rest =>
    obtain ⟨w1, h1, hsame, hkept, hun, hsink⟩ :=
      drawcharClipBox_spec E w c rest (glyphBBox E font glyphnr matrix) hcl
        (hw.1 c (by rw [hcl]; exact List.mem_cons_self _ _)) hw.union
    refine ⟨w1, hsame, hkept, hun, hsink, ?_⟩
    rw [polyops_drawchar_clip_eq E w font glyphnr color matrix c rest hcl, h1]
    rfl

theorem activeClip_kept (w w' : World Line Poly Coord) (hw : WF w) (hsame : SameDevice w w')
    (hkept : HeapKept w w') : activeClip w' = activeClip w := by
  unfold activeClip
  rw [hsame.2.2.1]
  cases hcl : w.i.clip with
  | nil => rfl
  | cons c rest =>
    simp only
    have hc := hw.1 c (by rw [hcl]; exact List.mem_cons_self _ _)
    obtain ⟨v, hv⟩ := Option.isSome_iff_exists.mp hc
    refine hkept.2 c (cell_lt hv) ?_
    intro hu
    exact (hw.2.2 c hu).2 (by rw [hcl]; exact List.mem_cons_self _ _)

theorem devClipBig_reachable :
    run boxEnv dev0 [.startclip (rect 0 0 100 100)] = .ok devClipBig := by
  rfl

theorem devClipLow_reachable :
    run boxEnv dev0 [.startclip (rect 0 0 100 2)] = .ok devClipLow := by
  rfl

theorem WF_devClipBig : WF devClipBig := by
  simp [WF, devClipBig, cell, heapAt]

theorem WF_dev0 : WF dev0 := by
  simp [WF, dev0, gfxdevice_removeclippings_init, cell, heapAt]

/-- Stroke, fillbitmap and fillgradient (and fill outside any clip) in a
well-formed state: the call succeeds and hands the output device the outline of
the clipped polygon through `mk`. -/
theorem clipAndForward_sink (E : Env Line Poly Coord) (w : World Line Poly Coord) (hw : WF w)
    (p0 : Poly) (mk : Line → SinkCall Line Coord) :
    ∃ w', clipAndForward E (alloc w p0).1 (alloc w p0).2 mk = .ok w' ∧
      SameDevice w w' ∧
      w'.sink = (match w.i.out with
        | some _ => w.sink ++ [mk (E.gfxpoly_to_gfxline (clipped E w p0))]
        | none => w.sink) := by
  obtain ⟨w', h, hsame, _, _, _, hsink⟩ := clipAndForward_spec E w p0 mk hw.head hw.union
  exact ⟨w', h, hsame, hsink⟩

theorem devUClip_reachable : run boxEnv devU [.startclip (rect 0 0 10 10)] = .ok devUClip := by
  rfl

theorem devUClipLow_reachable :
    run boxEnv devU [.startclip (rect 0 0 100 2)] = .ok devUClipLow := by
  rfl

theorem devUClipBig_reachable :
    run boxEnv devU [.startclip (rect 0 0 100 100)] = .ok devUClipBig := by
  rfl

theorem devClipBig_reachable_font :
    run boxEnvFont dev0 [.startclip (rect 0 0 100 100)] = .ok devClipBig := by
  rfl

theorem WF_devU : WF devU := by
  simp [WF, devU, gfxdevice_union_init, alloc, cell, heapAt]

theorem WF_devUClip : WF devUClip := by
  simp [WF, devUClip, cell, heapAt]

theorem WF_devUClipBig : WF devUClipBig := by
  simp [WF, devUClipBig, cell, heapAt]

theorem UnionAdded_unionPoly (E : Env Line Poly Coord) (w w' : World Line Poly Coord) (v : Poly)
    (h : UnionAdded E w w' v) :
    unionPoly w' = (unionPoly w).map (fun old => E.gfxpoly_union v old) := by
  unfold UnionAdded at h
  unfold unionPoly
  cases hpu : w.i.polyunion with
  | none =>
    rw [hpu] at h
    simp only at h
    rw [h]
    rfl
  | some u =>
    rw [hpu] at h
    simp only at h
    obtain ⟨u', h1, _, h3, _⟩ := h
    rw [h1]
    exact h3

theorem unionPoly_callOut (w : World Line Poly Coord) (c : SinkCall Line Coord) :
    unionPoly (callOut w c) = unionPoly w := rfl

theorem unionPoly_forward (w : World Line Poly Coord) (c : SinkCall Line Coord) :
    unionPoly (match w.i.out with
      | some _ => callOut w c
      | none => w) = unionPoly w := by
  cases w.i.out <;> rfl

theorem glyph_without_clip_leaves_union_aux (E : Env Line Poly Coord) (w : World Line Poly Coord)
    (hclip : w.i.clip = []) (font : Ptr) (glyphnr : Int) (color matrix : Ptr) :
    ∃ w', polyops_drawchar E w (some font) glyphnr color matrix = .ok w' ∧
      w'.sink = (match w.i.out with
        | some _ => w.sink ++ [SinkCall.drawchar font glyphnr color matrix]
        | none => w.sink) ∧
      w'.i = w.i ∧ w'.heap = w.heap ∧ unionPoly w' = unionPoly w := by
  cases hout : w.i.out with
  | none =>
    refine ⟨w, ?_, rfl, rfl, rfl, rfl⟩
    simp [polyops_drawchar, hclip, hout, pure, Except.pure]
  | some o =>
    refine ⟨callOut w (.drawchar font glyphnr color matrix), ?_, rfl, rfl, rfl, rfl⟩
    simp [polyops_drawchar, hclip, hout, pure, Except.pure]

/-- The union accumulator after one command that runs without error: the old
accumulator joined with the polygon the command folds, if it folds one. -/
theorem exec_union (E : Env Line Poly Coord) (w : World Line Poly Coord) (c : Cmd Line Coord)
    (r : World Line Poly Coord × Ret) (hw : WF w) (h : exec E w c = .ok r) :
    unionPoly r.1 = (match foldedPoly E w c with
      | some v => (unionPoly w).map (fun old => E.gfxpoly_union v old)
      | none => unionPoly w) := by
  cases c with
  | setparameter key value =>
    simp only [exec, pure, Except.pure, polyops_setparameter, dbg_eq] at h
    cases h
    simp only [foldedPoly]
    cases w.i.out <;> rfl
  | startpage width height =>
    simp only [exec, pure, Except.pure, polyops_startpage, dbg_eq] at h
    cases h
    exact unionPoly_forward w _
  | startclip line =>
    simp only [exec, pure, Except.pure, bind, Except.bind] at h
    obtain ⟨w2, p, h2, _, _, _, _, _, hpu, _, _, _, _, hold, _⟩ :=
      startclip_spec E w line hw.head
    rw [h2] at h
    cases h
    simp only [foldedPoly, unionPoly, hpu]
    cases hu : w.i.polyunion with
    | none => rfl
    | some u =>
      simp only
      obtain ⟨v, hv⟩ := Option.isSome_iff_exists.mp (hw.union u hu)
      exact hold u (cell_lt hv)
  | endclip =>
    simp only [exec, pure, Except.pure, bind, Except.bind] at h
    cases hcl : w.i.clip with
    | nil =>
      rw [endclip_empty w hcl] at h
      cases h
      rfl
    | cons c rest =>
      obtain ⟨w2, h2, hi, _, _, _, _, _, _, hold⟩ :=
        endclip_spec w c rest hcl (hw.1 c (by rw [hcl]; exact List.mem_cons_self _ _))
      rw [h2] at h
      cases h
      simp only [foldedPoly, unionPoly, hi]
      cases hu : w.i.polyunion with
      | none => rfl
      | some u =>
        simp only
        have hne : u ≠ c := by
          intro huc
          exact (hw.2.2 u hu).2 (by rw [hcl, huc]; exact List.mem_cons_self _ _)
        exact hold u hne
  | stroke line width color cap_style joint_style miterLimit =>
    simp only [exec, pure, Except.pure, bind, Except.bind] at h
    obtain ⟨w2, h2, _, _, hun, _, _⟩ := clipAndForward_spec E w
      (E.gfxpoly_strokeToPoly line width cap_style joint_style miterLimit)
      (fun l => .fill l color) hw.head hw.union
    rw [polyops_stroke_eq, h2] at h
    cases h
    exact UnionAdded_unionPoly E w _ _ hun
  | fill line color =>
    simp only [exec, pure, Except.pure, bind, Except.bind] at h
    by_cases hcl : w.i.clip = []
    · obtain ⟨w2, h2, _, _, hun, _, _⟩ := clipAndForward_spec E w (E.gfxpoly_fillToPoly line)
        (fun l => .fill l color) hw.head hw.union
      rw [polyops_fill_noclip_eq E w line color hcl, h2] at h
      cases h
      exact UnionAdded_unionPoly E w _ _ hun
    · obtain ⟨e, he⟩ := polyops_fill_clip_error E w line color hcl
      rw [he] at h
      cases h
  | fillbitmap line img matrix cxform =>
    simp only [exec, pure, Except.pure, bind, Except.bind] at h
    obtain ⟨w2, h2, _, _, hun, _, _⟩ := clipAndForward_spec E w (E.gfxpoly_fillToPoly line)
      (fun l => .fillbitmap l img matrix cxform) hw.head hw.union
    rw [polyops_fillbitmap_eq, h2] at h
    cases h
    exact UnionAdded_unionPoly E w _ _ hun
  | fillgradient line gradient type matrix =>
    simp only [exec, pure, Except.pure, bind, Except.bind] at h
    obtain ⟨w2, h2, _, _, hun, _, _⟩ := clipAndForward_spec E w (E.gfxpoly_fillToPoly line)
      (fun l => .fillgradient l gradient type matrix) hw.head hw.union
    rw [polyops_fillgradient_eq, h2] at h
    cases h
    exact UnionAdded_unionPoly E w _ _ hun
  | addfont font =>
    simp only [exec, pure, Except.pure, polyops_addfont, dbg_eq] at h
    cases h
    exact unionPoly_forward w _
  | drawchar font glyphnr color matrix =>
    simp only [exec, pure, Except.pure, bind, Except.bind] at h
    cases h1 : polyops_drawchar E w font glyphnr color matrix with
    | error e => rw [h1] at h; cases h
    | ok w' =>
      rw [h1] at h
      cases h
      simp only
      cases font with
      | none =>
        simp only [polyops_drawchar, dbg_eq, pure, Except.pure] at h1
        cases h1
        rfl
      | some f =>
        cases hcl : w.i.clip with
        | nil =>
          obtain ⟨w2, h2, _, hi, hh, hu⟩ :=
            glyph_without_clip_leaves_union_aux E w hcl f glyphnr color matrix
          rw [h2] at h1
          cases h1
          simp only [foldedPoly, hcl]
          exact hu
        | cons c rest =>
          have hact : w.i.clip ≠ [] := by rw [hcl]; exact List.cons_ne_nil _ _
          obtain ⟨w1, hsame, _, hun, _, hd⟩ :=
            drawchar_clip_branches E w hw hact f glyphnr color matrix
          have hu1 := UnionAdded_unionPoly E w w1 _ hun
          rw [hd] at h1
          simp only [foldedPoly, hcl]
          split at h1
          · cases h1
            exact hu1
          · split at h1
            · obtain ⟨e, he⟩ := polyops_fill_clip_error E w1 (glyphLine E f glyphnr matrix) color
                (by rw [hsame.2.2.1]; exact hact)
              rw [he] at h1
              cases h1
            · cases hout : w1.i.out with
              | none =>
                rw [hout] at h1
                cases h1
                exact hu1
              | some o =>
                rw [hout] at h1
                cases h1
                exact hu1
  | drawlink line action =>
    simp only [exec, pure, Except.pure, polyops_drawlink, dbg_eq] at h
    cases h
    exact unionPoly_forward w _
  | endpage =>
    simp only [exec, pure, Except.pure, polyops_endpage, dbg_eq] at h
    cases h
    exact unionPoly_forward w _
  | finish =>
    simp only [exec, pure, Except.pure, polyops_finish, dbg_eq] at h
    cases h
    simp only [foldedPoly]
    cases w.i.out <;> rfl

theorem devUClipFilled_reachable :
    exec boxEnv devUClip (.fillbitmap (rect 5 5 15 15) 3 4 5) = .ok devUClipFilled := by
  with_unfolding_all rfl

theorem clipped_eq_clipBy (E : Env Line Poly Coord) (w : World Line Poly Coord) (ls : List Line)
    (hinv : Inv E w ls) (p : Poly) : clipped E w p = clipBy E ls p := by
  unfold clipped clipBy
  rw [activeClip_of_StackOK E w ls hinv.2.1]

theorem foldedPoly_eq_foldedBy (E : Env Line Poly Coord)
    (w : World Line Poly Coord) (ls : List Line)
    (hinv : Inv E w ls) (c : Cmd Line Coord) : foldedPoly E w c = foldedBy E ls c := by
  have hlen := StackOK_length E w _ _ hinv.2.1
  cases c with
  | drawchar font glyphnr color matrix =>
    cases font with
    | none => rfl
    | some f =>
      simp only [foldedPoly, foldedBy]
      cases hcl : w.i.clip with
      | nil =>
        rw [hcl] at hlen
        cases ls with
        | nil => rfl
        | cons l ls => simp at hlen
      | cons c rest =>
        rw [hcl] at hlen
        cases ls with
        | nil => simp at hlen
        | cons l ls =>
          simp only
          rw [clipped_eq_clipBy E w _ hinv]
  | stroke line width color cap_style joint_style miterLimit =>
    simp only [foldedPoly, foldedBy, clipped_eq_clipBy E w ls hinv]
  | fill line color => simp only [foldedPoly, foldedBy, clipped_eq_clipBy E w ls hinv]
  | fillbitmap line img matrix cxform =>
    simp only [foldedPoly, foldedBy, clipped_eq_clipBy E w ls hinv]
  | fillgradient line gradient type matrix =>
    simp only [foldedPoly, foldedBy, clipped_eq_clipBy E w ls hinv]
  | setparameter key value => rfl
  | startpage width height => rfl
  | startclip line => rfl
  | endclip => rfl
  | addfont font => rfl
  | drawlink line action => rfl
  | endpage => rfl
  | finish => rfl

/-- The union accumulator after a run: the fold of `union` over the polygons the
commands fold, in issue order. -/
theorem run_union_fold (E : Env Line Poly Coord) :
    ∀ (cs : List (Cmd Line Coord)) (w0 w : World Line Poly Coord) (ls : List Line) (acc : Poly),
      Inv E w0 ls → unionPoly w0 = some acc → run E w0 cs = .ok w →
        unionPoly w = some (unionFold E cs ls acc)
  | [], w0, w, ls, acc, _, hacc, h => by
    simp only [run, pure, Except.pure] at h
    cases h
    exact hacc
  | c :: cs, w0, w, ls, acc, hinv, hacc, h => by
    simp only [run, bind, Except.bind] at h
    cases h1 : exec E w0 c with
    | error e => rw [h1] at h; cases h
    | ok r =>
      rw [h1] at h
      have hu := exec_union E w0 c r hinv.1 h1
      rw [foldedPoly_eq_foldedBy E w0 ls hinv c, hacc] at hu
      refine run_union_fold E cs r.1 w _ _ (exec_inv E w0 c r ls hinv h1) ?_ h
      rw [hu]
      cases foldedBy E ls c <;> rfl

theorem unionPoly_none_iff (w : World Line Poly Coord) (hw : WF w) :
    unionPoly w = none ↔ w.i.polyunion = none := by
  unfold unionPoly
  cases hu : w.i.polyunion with
  | none => simp
  | some u =>
    obtain ⟨v, hv⟩ := Option.isSome_iff_exists.mp (hw.union u hu)
    simp [hv]

/-- Without union tracking the accumulator stays absent along every run. -/
theorem run_union_absent (E : Env Line Poly Coord) :
    ∀ (cs : List (Cmd Line Coord)) (w0 w : World Line Poly Coord) (ls : List Line),
      Inv E w0 ls → w0.i.polyunion = none → run E w0 cs = .ok w → w.i.polyunion = none
  | [], w0, w, ls, _, hacc, h => by
    simp only [run, pure, Except.pure] at h
    cases h
    exact hacc
  | c :: cs, w0, w, ls, hinv, hacc, h => by
    simp only [run, bind, Except.bind] at h
    cases h1 : exec E w0 c with
    | error e => rw [h1] at h; cases h
    | ok r =>
      rw [h1] at h
      have hinv1 := exec_inv E w0 c r ls hinv h1
      have hu := exec_union E w0 c r hinv.1 h1
      rw [(unionPoly_none_iff w0 hinv.1).mpr hacc] at hu
      refine run_union_absent E cs r.1 w _ hinv1 ?_ h
      refine (unionPoly_none_iff r.1 hinv1.1).mp ?_
      rw [hu]
      cases foldedPoly E w0 c <;> rfl

theorem boxArea_nonneg (b : Box) : 0 ≤ boxArea b :=
  mul_nonneg (le_max_left 0 _) (le_max_left 0 _)

theorem boxesArea_nonneg (p : List Box) : 0 ≤ boxesArea p := by
  unfold boxesArea
  apply List.sum_nonneg
  intro x hx
  obtain ⟨b, _, hb⟩ := List.mem_map.mp hx
  rw [← hb]
  exact boxArea_nonneg b

theorem boxesArea_union (a b : List Box) :
    boxesArea a ≤ boxesArea (boxEnv.gfxpoly_union a b) ∧
      boxesArea b ≤ boxesArea (boxEnv.gfxpoly_union a b) := by
  have h : boxEnv.gfxpoly_union a b = a ++ b := rfl
  have h2 : boxesArea (a ++ b) = boxesArea a + boxesArea b := by
    simp [boxesArea]
  rw [h, h2]
  have ha := boxesArea_nonneg a
  have hb := boxesArea_nonneg b
  constructor <;> linarith

theorem boxesArea_seed :
    boxesArea (boxEnv.gfxpoly_strokeToPoly boxEnv.nullLine 0 boxEnv.gfx_capButt
      boxEnv.gfx_joinMiter 0) = 0 := by
  simp [boxesArea, boxEnv]

theorem FramesNested_of_StackOK (E : Env Line Poly Coord) (sub : Poly → Poly → Prop)
    (hsub : ∀ a b, sub (E.gfxpoly_intersect a b) a ∧ sub (E.gfxpoly_intersect a b) b)
    (w : World Line Poly Coord) :
    ∀ (cs : List Nat) (ls : List Line), StackOK E w cs ls → FramesNested sub w cs
  | [], _, _ => trivial
  | [_], _, _ => trivial
  | _ :: _ :: _, [], h => h.elim
  | _ :: _ :: _, [_], h => h.2.elim
  | c :: p :: rest, l :: l2 :: ls, h => by
    refine ⟨⟨_, _, h.1, h.2.1, ?_⟩, FramesNested_of_StackOK E sub hsub w (p :: rest) (l2 :: ls) h.2⟩
    exact (hsub _ _).2

theorem boxInter_sub (a b x : Box) (h : boxInter a b = some x) :
    (a.xmin ≤ x.xmin ∧ a.ymin ≤ x.ymin ∧ x.xmax ≤ a.xmax ∧ x.ymax ≤ a.ymax) ∧
    (b.xmin ≤ x.xmin ∧ b.ymin ≤ x.ymin ∧ x.xmax ≤ b.xmax ∧ x.ymax ≤ b.ymax) := by
  unfold boxInter at h
  simp only at h
  split at h
  · cases h
    exact ⟨⟨le_max_left _ _, le_max_left _ _, min_le_left _ _, min_le_left _ _⟩,
      ⟨le_max_right _ _, le_max_right _ _, min_le_right _ _, min_le_right _ _⟩⟩
  · cases h

theorem boxesSub_inter (a b : List Box) :
    boxesSub (boxEnv.gfxpoly_intersect a b) a ∧ boxesSub (boxEnv.gfxpoly_intersect a b) b := by
  have h : boxEnv.gfxpoly_intersect a b = a.flatMap (fun x => b.filterMap (boxInter x)) := rfl
  rw [h]
  constructor
  · intro x hx
    obtain ⟨y, hy, hxy⟩ := List.mem_flatMap.mp hx
    obtain ⟨z, _, hz⟩ := List.mem_filterMap.mp hxy
    exact ⟨y, hy, (boxInter_sub y z x hz).1⟩
  · intro x hx
    obtain ⟨y, _, hxy⟩ := List.mem_flatMap.mp hx
    obtain ⟨z, hz1, hz⟩ := List.mem_filterMap.mp hxy
    exact ⟨z, hz1, (boxInter_sub y z x hz).2⟩

theorem getunion_eq (E : Env Line Poly Coord) (w : World Line Poly Coord) (acc : Poly)
    (h : unionPoly w = some acc) :
    gfxdevice_union_getunion E w = .ok (E.gfxpoly_to_gfxline acc) := by
  unfold unionPoly at h
  unfold gfxdevice_union_getunion
  cases hu : w.i.polyunion with
  | none => rw [hu] at h; cases h
  | some u =>
    rw [hu] at h
    simp only at h
    simp [gfxpoly_to_gfxline, deref, h, bind, Except.bind, pure, Except.pure]

/-- The operations of a well-formed device with no output device bound, the fill
path under an active clip apart: every one succeeds and leaves the trace of the
output device as it was; setparameter returns 0 and finish returns no result. -/
theorem nosink_operations (E : Env Line Poly Coord) (w : World Line Poly Coord) (hw : WF w)
    (hout : w.i.out = none) :
    (∀ key value, polyops_setparameter E w key value = (w, 0)) ∧
    (∀ width height, polyops_startpage w width height = w) ∧
    (∀ font, polyops_addfont w font = w) ∧
    (∀ line action, polyops_drawlink w line action = w) ∧
    polyops_endpage w = w ∧
    polyops_finish E w = (w, none) ∧
    (∀ line width color cap_style joint_style miterLimit,
      ∃ w', polyops_stroke E w line width color cap_style joint_style miterLimit = .ok w' ∧
        w'.sink = w.sink) ∧
    (∀ line img matrix cxform,
      ∃ w', polyops_fillbitmap E w line img matrix cxform = .ok w' ∧ w'.sink = w.sink) ∧
    (∀ line gradient type matrix,
      ∃ w', polyops_fillgradient E w line gradient type matrix = .ok w' ∧ w'.sink = w.sink) ∧
    (w.i.clip = [] → ∀ line color,
      ∃ w', polyops_fill E w line color = .ok w' ∧ w'.sink = w.sink) ∧
    (∀ glyphnr color matrix, polyops_drawchar E w none glyphnr color matrix = .ok w) ∧
    (w.i.clip = [] → ∀ font glyphnr color matrix,
      polyops_drawchar E w (some font) glyphnr color matrix = .ok w) := by
  refine ⟨?_, ?_, ?_, ?_, ?_, ?_, ?_, ?_, ?_, ?_, ?_, ?_⟩
  · intro key value
    simp [polyops_setparameter, hout]
  · intro width height
    simp [polyops_startpage, hout]
  · intro font
    simp [polyops_addfont, hout]
  · intro line action
    simp [polyops_drawlink, hout]
  · simp [polyops_endpage, hout]
  · simp [polyops_finish, hout]
  · intro line width color cap_style joint_style miterLimit
    obtain ⟨w', h, _, hs⟩ := clipAndForward_sink E w hw
      (E.gfxpoly_strokeToPoly line width cap_style joint_style miterLimit)
      (fun l => .fill l color)
    rw [hout] at hs
    exact ⟨w', by rw [polyops_stroke_eq]; exact h, hs⟩
  · intro line img matrix cxform
    obtain ⟨w', h, _, hs⟩ := clipAndForward_sink E w hw (E.gfxpoly_fillToPoly line)
      (fun l => .fillbitmap l img matrix cxform)
    rw [hout] at hs
    exact ⟨w', by rw [polyops_fillbitmap_eq]; exact h, hs⟩
  · intro line gradient type matrix
    obtain ⟨w', h, _, hs⟩ := clipAndForward_sink E w hw (E.gfxpoly_fillToPoly line)
      (fun l => .fillgradient l gradient type matrix)
    rw [hout] at hs
    exact ⟨w', by rw [polyops_fillgradient_eq]; exact h, hs⟩
  · intro hcl line color
    obtain ⟨w', h, _, hs⟩ := clipAndForward_sink E w hw (E.gfxpoly_fillToPoly line)
      (fun l => .fill l color)
    rw [hout] at hs
    exact ⟨w', by rw [polyops_fill_noclip_eq E w line color hcl]; exact h, hs⟩
  · intro glyphnr color matrix
    simp [polyops_drawchar, pure, Except.pure]
  · intro hcl font glyphnr color matrix
    simp [polyops_drawchar, hcl, hout, pure, Except.pure]

end Lemmas

/-! ## The claims -/

/-- C1 (push/pop symmetry): from every well-formed state, N startclip calls with
any outlines followed by N endclip calls succeed and leave the device record
(output pointer, clip stack, union pointer), the active clip polygon, the trace
of the output device and stderr as they were, so no diagnostic is written; and
one endclip on a non-empty stack removes exactly the top frame, the parent
frame with its polygon becoming the top. -/
theorem clip_push_pop_symmetry {Line Poly Coord : Type} (E : Env Line Poly Coord)
    (w : World Line Poly Coord)
    (hw : WF w) (ls : List Line) :
    (∃ w', run E w (ls.map Cmd.startclip ++ List.replicate ls.length Cmd.endclip) = .ok w' ∧
      w'.i = w.i ∧ w'.i.clip.length = w.i.clip.length ∧ activeClip w' = activeClip w ∧
      w'.stderr = w.stderr ∧ w'.sink = w.sink) ∧
    (∀ c rest, w.i.clip = c :: rest →
      ∃ w', polyops_endclip w = .ok w' ∧ w'.i.clip = rest ∧
        w'.i.clip.length + 1 = w.i.clip.length ∧
        activeClip w' = (match rest with
          | [] => none
          | p :: _ => cell w p) ∧
        w'.stderr = w.stderr) := by
  constructor
  · obtain ⟨w', h, hi, _, hs, he, _, _, hold, _⟩ := push_pop E ls w hw.head
    refine ⟨w', h, hi, by rw [hi], ?_, he, hs⟩
    unfold activeClip
    rw [hi]
    cases hcl : w.i.clip with
    | nil => rfl
    | cons c rest =>
      simp only
      obtain ⟨v, hv⟩ := Option.isSome_iff_exists.mp
        (hw.1 c (by rw [hcl]; exact List.mem_cons_self _ _))
      exact hold c (cell_lt hv)
  · intro c rest hcl
    obtain ⟨w', h, hi, _, _, he, _, _, _, hold⟩ :=
      endclip_spec w c rest hcl (hw.1 c (by rw [hcl]; exact List.mem_cons_self _ _))
    refine ⟨w', h, by rw [hi], by rw [hi, hcl]; rfl, ?_, he⟩
    unfold activeClip
    rw [hi]
    cases rest with
    | nil => rfl
    | cons p rest2 =>
      simp only
      have hnd := hw.2.1
      rw [hcl] at hnd
      have hne : p ≠ c := by
        intro hpc
        exact (List.nodup_cons.mp hnd).1 (hpc ▸ List.mem_cons_self _ _)
      exact hold p hne

/-- Witness for C1: the theorem at the device with the clip `rect[0,0,10,10]` open and
two further outlines. -/
theorem clip_push_pop_symmetry_witness :
    WF devClip ∧
    ((∃ w', run boxEnv devClip (([rect 5 5 15 15, rect 0 0 1 1]).map Cmd.startclip ++
        List.replicate ([rect 5 5 15 15, rect 0 0 1 1]).length Cmd.endclip) = .ok w' ∧
      w'.i = devClip.i ∧ w'.i.clip.length = devClip.i.clip.length ∧
      activeClip w' = activeClip devClip ∧
      w'.stderr = devClip.stderr ∧ w'.sink = devClip.sink) ∧
    (∀ c rest, devClip.i.clip = c :: rest →
      ∃ w', polyops_endclip devClip = .ok w' ∧ w'.i.clip = rest ∧
        w'.i.clip.length + 1 = devClip.i.clip.length ∧
        activeClip w' = (match rest with
          | [] => none
          | p :: _ => cell devClip p) ∧
        w'.stderr = devClip.stderr)) :=
  ⟨WF_devClip, clip_push_pop_symmetry boxEnv devClip WF_devClip [rect 5 5 15 15, rect 0 0 1 1]⟩

/-- C2 (unmatched endclip): on every state whose clip stack is empty, endclip
succeeds, writes exactly one diagnostic line to stderr, makes no call on the
output device and changes nothing else (device record with clip stack and union
pointer, heap, name, stdout); and every command run after it fails or succeeds,
returns and leaves the state exactly as it does without the endclip, the extra
diagnostic line apart. -/
theorem endclip_unmatched_safe {Line Poly Coord : Type} (E : Env Line Poly Coord)
    (w : World Line Poly Coord)
    (h : w.i.clip = []) :
    ∃ w', polyops_endclip w = .ok w' ∧
      w'.stderr = w.stderr ++ ["Error: endclip without startclip\n"] ∧
      w'.sink = w.sink ∧ w'.i = w.i ∧ w'.heap = w.heap ∧ w'.name = w.name ∧
      w'.stdout = w.stdout ∧
      ∀ c : Cmd Line Coord, exec E w' c =
        (fun r => (setStderr (w'.stderr ++ r.1.stderr.drop w.stderr.length) r.1, r.2)) <$>
          exec E w c := by
  refine ⟨setStderr (w.stderr ++ ["Error: endclip without startclip\n"]) w,
    endclip_empty w h, rfl, rfl, rfl, rfl, rfl, rfl, ?_⟩
  intro c
  by_cases hc : c = .endclip
  · subst hc
    have h1 : (setStderr (w.stderr ++ ["Error: endclip without startclip\n"]) w).i.clip = [] := h
    have e1 := endclip_empty _ h1
    have e2 := endclip_empty w h
    simp only [exec, e1, e2, bind, Except.bind, pure, Except.pure, Functor.map, Except.map]
    simp only [setStderr, List.drop_left]
  · rw [exec_setStderr E _ w c (Or.inl hc)]
    cases hr : exec E w c with
    | error e => rfl
    | ok r =>
      have hk := exec_stderr_kept E w c r (Or.inl hc) hr
      simp only [Functor.map, Except.map, setStderr, hk, List.drop_length, List.append_nil]

/-- Witness for C2: the theorem at the freshly constructed removeclippings device. -/
theorem endclip_unmatched_safe_witness :
    dev0.i.clip = [] ∧
    ∃ w', polyops_endclip dev0 = .ok w' ∧
      w'.stderr = dev0.stderr ++ ["Error: endclip without startclip\n"] ∧
      w'.sink = dev0.sink ∧ w'.i = dev0.i ∧ w'.heap = dev0.heap ∧ w'.name = dev0.name ∧
      w'.stdout = dev0.stdout ∧
      ∀ c : Cmd (List Box) ℚ, exec boxEnv w' c =
        (fun r => (setStderr (w'.stderr ++ r.1.stderr.drop dev0.stderr.length) r.1, r.2)) <$>
          exec boxEnv dev0 c :=
  ⟨rfl, endclip_unmatched_safe boxEnv dev0 rfl⟩

/-- C3 (active clip): in every state reached from either constructor by a command
sequence, the clip stack has one frame per startclip that is still open (an
endclip on an empty stack closes nothing), so the active clip is absent exactly
when none is open, and otherwise the top frame holds the nested intersection
`intersect(P_n, intersect(P_{n-1}, ... P_1))` of the fill polygons of the open
outlines in opening order. -/
theorem active_clip_nested_intersection {Line Poly Coord : Type} (E : Env Line Poly Coord)
    (out : Option Ptr) (cs : List (Cmd Line Coord)) (w : World Line Poly Coord)
    (h : run E (gfxdevice_removeclippings_init out) cs = .ok w ∨
      run E (gfxdevice_union_init E out) cs = .ok w) :
    activeClip w = nestedIntersect E (openClips cs []) ∧
      w.i.clip.length = (openClips cs []).length ∧
      (activeClip w = none ↔ openClips cs [] = []) := by
  have hinv : Inv E w (openClips cs []) := by
    rcases h with h | h
    · exact run_inv E cs _ w [] (Inv_removeclippings_init E out) h
    · exact run_inv E cs _ w [] (Inv_union_init E out) h
  have hact := activeClip_of_StackOK E w _ hinv.2.1
  refine ⟨hact, StackOK_length E w _ _ hinv.2.1, ?_⟩
  rw [hact]
  cases openClips cs [] with
  | nil => simp [nestedIntersect]
  | cons l ls => simp [nestedIntersect]

/-- Witness for C3: two nested startclip calls on the removeclippings device. -/
theorem active_clip_nested_intersection_witness :
    (run boxEnv (gfxdevice_removeclippings_init (some 1))
        [.startclip (rect 0 0 10 10), .startclip (rect 5 5 15 15)] = .ok devClip2 ∨
      run boxEnv (gfxdevice_union_init boxEnv (some 1))
        [.startclip (rect 0 0 10 10), .startclip (rect 5 5 15 15)] = .ok devClip2) ∧
    (activeClip devClip2 = nestedIntersect boxEnv
        (openClips ([.startclip (rect 0 0 10 10), .startclip (rect 5 5 15 15)] :
          List (Cmd (List Box) ℚ)) []) ∧
      devClip2.i.clip.length =
        (openClips ([.startclip (rect 0 0 10 10), .startclip (rect 5 5 15 15)] :
          List (Cmd (List Box) ℚ)) []).length ∧
      (activeClip devClip2 = none ↔
        openClips ([.startclip (rect 0 0 10 10), .startclip (rect 5 5 15 15)] :
          List (Cmd (List Box) ℚ)) [] = [])) :=
  ⟨Or.inl devClip2_reachable,
    active_clip_nested_intersection boxEnv (some 1)
      [.startclip (rect 0 0 10 10), .startclip (rect 5 5 15 15)] devClip2
      (Or.inl devClip2_reachable)⟩

/-- C10 (glyph clipped away): in every well-formed state with an active clip, a
drawchar with a present font for which the code's test `w < 0.001 || h < 0.001`
on the width and height of the clipped bounding box (line 227, computed in
`double`) is true succeeds, makes no call of any kind on the output device and
leaves the clip stack and the active clip polygon unchanged. -/
theorem glyph_clipped_away_dropped {Line Poly Coord : Type} (E : Env Line Poly Coord)
    (w : World Line Poly Coord) (hw : WF w) (hact : w.i.clip ≠ []) (font : Ptr) (glyphnr : Int)
    (color matrix : Ptr)
    (htiny : E.dbl_lt ((clippedBBox E w font glyphnr matrix).width E) E.lit_0_001 = true ∨
      E.dbl_lt ((clippedBBox E w font glyphnr matrix).height E) E.lit_0_001 = true) :
    ∃ w', polyops_drawchar E w (some font) glyphnr color matrix = .ok w' ∧
      w'.sink = w.sink ∧ w'.i.clip = w.i.clip ∧ activeClip w' = activeClip w := by
  obtain ⟨w1, hsame, hkept, _, hsink, h⟩ :=
    drawchar_clip_branches E w hw hact font glyphnr color matrix
  have ht : clippedAway E (clippedBBox E w font glyphnr matrix) := htiny
  rw [if_pos ht] at h
  exact ⟨w1, h, hsink, hsame.2.2.1, activeClip_kept w w1 hw hsame hkept⟩

/-- Witness for C10: the sliver glyph 2 of `boxEnvFont` (width `1/2048`, height
10) under the clip `rect[0,0,100,100]`; the clipped width `1/2048` is below the
`double` constant `0.001`. -/
theorem glyph_clipped_away_dropped_witness :
    WF devClipBig ∧ devClipBig.i.clip ≠ [] ∧
    (boxEnvFont.dbl_lt ((clippedBBox boxEnvFont devClipBig 9 2 0).width boxEnvFont)
        boxEnvFont.lit_0_001 = true ∨
      boxEnvFont.dbl_lt ((clippedBBox boxEnvFont devClipBig 9 2 0).height boxEnvFont)
        boxEnvFont.lit_0_001 = true) ∧
    ∃ w', polyops_drawchar boxEnvFont devClipBig (some 9) 2 3 0 = .ok w' ∧
      w'.sink = devClipBig.sink ∧ w'.i.clip = devClipBig.i.clip ∧
      activeClip w' = activeClip devClipBig :=
  ⟨WF_devClipBig, by decide, Or.inl (by with_unfolding_all rfl),
    glyph_clipped_away_dropped boxEnvFont devClipBig WF_devClipBig (by decide) 9 2 3 0
      (Or.inl (by with_unfolding_all rfl))⟩

/-- C8, counterexample: under the clip `rect[0,0,100,100]` the sliver glyph 2 of
`boxEnvFont` has a clipped bounding box equal to its own (width `1/2048`, height
10), so neither of the code's tests `fabs(..) > 0.05` is true, yet the output
device receives no call at all. -/
theorem glyph_within_tolerance_not_forwarded :
    devClipBig.i.out = some 1 ∧ devClipBig.i.clip ≠ [] ∧
    clippedBBox boxEnvFont devClipBig 9 2 0 = glyphBBox boxEnvFont 9 2 0 ∧
    boxEnvFont.dbl_gt (boxEnvFont.fabs (boxEnvFont.dbl_sub
      ((glyphBBox boxEnvFont 9 2 0).width boxEnvFont)
      ((clippedBBox boxEnvFont devClipBig 9 2 0).width boxEnvFont)))
      boxEnvFont.lit_0_05 = false ∧
    boxEnvFont.dbl_gt (boxEnvFont.fabs (boxEnvFont.dbl_sub
      ((glyphBBox boxEnvFont 9 2 0).height boxEnvFont)
      ((clippedBBox boxEnvFont devClipBig 9 2 0).height boxEnvFont)))
      boxEnvFont.lit_0_05 = false ∧
    ∃ w', polyops_drawchar boxEnvFont devClipBig (some 9) 2 3 0 = .ok w' ∧ w'.sink = [] := by
  refine ⟨rfl, by decide, by with_unfolding_all rfl, by with_unfolding_all rfl,
    by with_unfolding_all rfl, ?_⟩
  obtain ⟨w1, _, _, _, hsink, h⟩ :=
    drawchar_clip_branches boxEnvFont devClipBig WF_devClipBig (by decide) 9 2 3 0
  have ht : clippedAway boxEnvFont (clippedBBox boxEnvFont devClipBig 9 2 0) :=
    Or.inl (by with_unfolding_all rfl)
  rw [if_pos ht] at h
  exact ⟨w1, h, hsink⟩

/-- C8, amended: in every well-formed state with a bound output device and an
active clip, a drawchar with a present font for which none of the code's four
tests on the clipped bounding box is true (`w < 0.001`, `h < 0.001`,
`fabs((bbox.xmax - bbox.xmin) - w) > 0.05`, `fabs((bbox.ymax - bbox.ymin) - h) >
0.05`, all computed in `double`) makes exactly one call on the output device,
the drawchar call with the original font, glyph index, colour and matrix, and
no fill call. -/
theorem glyph_forwarded_when_box_kept {Line Poly Coord : Type} (E : Env Line Poly Coord)
    (w : World Line Poly Coord) (hw : WF w) (o : Ptr) (hout : w.i.out = some o)
    (hact : w.i.clip ≠ []) (font : Ptr) (glyphnr : Int) (color matrix : Ptr)
    (hwd : E.dbl_lt ((clippedBBox E w font glyphnr matrix).width E) E.lit_0_001 = false)
    (hht : E.dbl_lt ((clippedBBox E w font glyphnr matrix).height E) E.lit_0_001 = false)
    (hdw : E.dbl_gt (E.fabs (E.dbl_sub ((glyphBBox E font glyphnr matrix).width E)
      ((clippedBBox E w font glyphnr matrix).width E))) E.lit_0_05 = false)
    (hdh : E.dbl_gt (E.fabs (E.dbl_sub ((glyphBBox E font glyphnr matrix).height E)
      ((clippedBBox E w font glyphnr matrix).height E))) E.lit_0_05 = false) :
    ∃ w', polyops_drawchar E w (some font) glyphnr color matrix = .ok w' ∧
      w'.sink = w.sink ++ [SinkCall.drawchar font glyphnr color matrix] := by
  obtain ⟨w1, hsame, _, _, hsink, h⟩ :=
    drawchar_clip_branches E w hw hact font glyphnr color matrix
  have h1 : ¬ clippedAway E (clippedBBox E w font glyphnr matrix) := by
    intro hc
    rcases hc with hc | hc
    · rw [hwd] at hc
      cases hc
    · rw [hht] at hc
      cases hc
  have h2 : ¬ sizeChanged E (glyphBBox E font glyphnr matrix)
      (clippedBBox E w font glyphnr matrix) := by
    intro hc
    rcases hc with hc | hc
    · rw [hdw] at hc
      cases hc
    · rw [hdh] at hc
      cases hc
  have ho1 : w1.i.out = some o := by rw [hsame.2.1, hout]
  rw [if_neg h1, if_neg h2, ho1] at h
  exact ⟨_, h, by simp [callOut, hsink]⟩

/-- Witness for C8 amended: glyph 100000 of the box environment (10 by 10) under
the clip `rect[0,0,100,100]`. -/
theorem glyph_forwarded_when_box_kept_witness :
    WF devClipBig ∧ devClipBig.i.out = some 1 ∧ devClipBig.i.clip ≠ [] ∧
    boxEnv.dbl_lt ((clippedBBox boxEnv devClipBig 9 100000 0).width boxEnv)
      boxEnv.lit_0_001 = false ∧
    boxEnv.dbl_lt ((clippedBBox boxEnv devClipBig 9 100000 0).height boxEnv)
      boxEnv.lit_0_001 = false ∧
    boxEnv.dbl_gt (boxEnv.fabs (boxEnv.dbl_sub ((glyphBBox boxEnv 9 100000 0).width boxEnv)
      ((clippedBBox boxEnv devClipBig 9 100000 0).width boxEnv))) boxEnv.lit_0_05 = false ∧
    boxEnv.dbl_gt (boxEnv.fabs (boxEnv.dbl_sub ((glyphBBox boxEnv 9 100000 0).height boxEnv)
      ((clippedBBox boxEnv devClipBig 9 100000 0).height boxEnv))) boxEnv.lit_0_05 = false ∧
    ∃ w', polyops_drawchar boxEnv devClipBig (some 9) 100000 3 0 = .ok w' ∧
      w'.sink = devClipBig.sink ++ [SinkCall.drawchar 9 100000 3 0] :=
  ⟨WF_devClipBig, rfl, by decide, by with_unfolding_all rfl, by with_unfolding_all rfl,
    by with_unfolding_all rfl, by with_unfolding_all rfl,
    glyph_forwarded_when_box_kept boxEnv devClipBig WF_devClipBig 1 rfl (by decide) 9 100000 3 0
      (by with_unfolding_all rfl) (by with_unfolding_all rfl) (by with_unfolding_all rfl)
      (by with_unfolding_all rfl)⟩

/-- C9, the code at the failing input: under the clip `rect[0,0,100,2]` glyph
100000 of the box environment (10 by 10) keeps its width and has its height cut
from 10 to 2; `polyops_drawchar` hands the glyph to `polyops_fill`, which reads
the polygon it has just released, so no fill reaches the output device. -/
theorem glyph_truncated_fill_uses_released_polygon :
    (glyphBBox boxEnv 9 100000 0).height boxEnv = 10 ∧
    (clippedBBox boxEnv devClipLow 9 100000 0).height boxEnv = 2 ∧
    (clippedBBox boxEnv devClipLow 9 100000 0).width boxEnv = 10 ∧
    polyops_drawchar boxEnv devClipLow (some 9) 100000 3 0 = .error .useAfterFree := by
  refine ⟨by with_unfolding_all rfl, by with_unfolding_all rfl, by with_unfolding_all rfl, ?_⟩
  with_unfolding_all rfl

/-- C4, the code at the failing input: `startclip(rect[0,0,10,10])` followed by
`fill(rect[5,5,15,15])` does not forward `rect[5,5,10,10]`: `polyops_fill`
releases the intersection it has just computed and then reads it.  The sibling
`fillbitmap` on the same input forwards exactly `rect[5,5,10,10]`. -/
theorem fill_under_clip_reads_released_polygon :
    run boxEnv dev0 [.startclip (rect 0 0 10 10), .fill (rect 5 5 15 15) 3] =
      .error .useAfterFree ∧
    ∃ w', run boxEnv dev0 [.startclip (rect 0 0 10 10), .fillbitmap (rect 5 5 15 15) 3 4 5] =
        .ok w' ∧ w'.sink = [SinkCall.fillbitmap (rect 5 5 10 10) 3 4 5] := by
  refine ⟨by with_unfolding_all rfl, ?_⟩
  refine ⟨⟨"removeclippings", ⟨some 1, [0], none⟩, [some (rect 0 0 10 10), none, none],
    [SinkCall.fillbitmap (rect 5 5 10 10) 3 4 5], [], []⟩, ?_, rfl⟩
  with_unfolding_all rfl

/-- C5, counterexample: a stroke issued on the freshly constructed device reaches
the output device as a `fill` call carrying the stroke polygon's outline and the
colour; no `stroke` call is made and width, cap, join and miter limit are not
passed on. -/
theorem stroke_is_forwarded_as_fill :
    ∃ w', polyops_stroke boxEnv dev0 (rect 0 0 10 10) 2 3 0 0 0 = .ok w' ∧
      w'.sink = [SinkCall.fill (rect (-1) (-1) 11 11) 3] ∧
      ∀ c ∈ w'.sink, SinkCall.isStroke c = false := by
  refine ⟨⟨"removeclippings", ⟨some 1, [], none⟩, [none],
    [SinkCall.fill (rect (-1) (-1) 11 11) 3], [], []⟩, by with_unfolding_all rfl, rfl, ?_⟩
  intro c hc
  simp only [List.mem_singleton] at hc
  rw [hc]
  rfl

/-- C5, amended: in every well-formed state with a bound output device, a stroke
is forwarded as one `fill` call with the stroke's colour and the outline of the
clipped stroke polygon; fillbitmap and fillgradient are forwarded as one call of
their own kind with only the outline replaced by the clipped outline and image,
matrix, colour transform, gradient and type unchanged; and with no clip active a
fill is forwarded as one `fill` call with its colour and the outline of its
polygon. -/
theorem shape_forwarding_kinds {Line Poly Coord : Type} (E : Env Line Poly Coord)
    (w : World Line Poly Coord)
    (hw : WF w) (o : Ptr) (hout : w.i.out = some o) :
    (∀ line width color cap_style joint_style miterLimit,
      ∃ w', polyops_stroke E w line width color cap_style joint_style miterLimit = .ok w' ∧
        w'.sink = w.sink ++ [SinkCall.fill (E.gfxpoly_to_gfxline (clipped E w
          (E.gfxpoly_strokeToPoly line width cap_style joint_style miterLimit))) color]) ∧
    (∀ line img matrix cxform,
      ∃ w', polyops_fillbitmap E w line img matrix cxform = .ok w' ∧
        w'.sink = w.sink ++ [SinkCall.fillbitmap (E.gfxpoly_to_gfxline (clipped E w
          (E.gfxpoly_fillToPoly line))) img matrix cxform]) ∧
    (∀ line gradient type matrix,
      ∃ w', polyops_fillgradient E w line gradient type matrix = .ok w' ∧
        w'.sink = w.sink ++ [SinkCall.fillgradient (E.gfxpoly_to_gfxline (clipped E w
          (E.gfxpoly_fillToPoly line))) gradient type matrix]) ∧
    (w.i.clip = [] → ∀ line color,
      ∃ w', polyops_fill E w line color = .ok w' ∧
        w'.sink = w.sink ++ [SinkCall.fill (E.gfxpoly_to_gfxline
          (E.gfxpoly_fillToPoly line)) color]) := by
  refine ⟨?_, ?_, ?_, ?_⟩
  · intro line width color cap_style joint_style miterLimit
    obtain ⟨w', h, _, hs⟩ := clipAndForward_sink E w hw
      (E.gfxpoly_strokeToPoly line width cap_style joint_style miterLimit)
      (fun l => .fill l color)
    rw [hout] at hs
    exact ⟨w', by rw [polyops_stroke_eq]; exact h, hs⟩
  · intro line img matrix cxform
    obtain ⟨w', h, _, hs⟩ := clipAndForward_sink E w hw (E.gfxpoly_fillToPoly line)
      (fun l => .fillbitmap l img matrix cxform)
    rw [hout] at hs
    exact ⟨w', by rw [polyops_fillbitmap_eq]; exact h, hs⟩
  · intro line gradient type matrix
    obtain ⟨w', h, _, hs⟩ := clipAndForward_sink E w hw (E.gfxpoly_fillToPoly line)
      (fun l => .fillgradient l gradient type matrix)
    rw [hout] at hs
    exact ⟨w', by rw [polyops_fillgradient_eq]; exact h, hs⟩
  · intro hcl line color
    obtain ⟨w', h, _, hs⟩ := clipAndForward_sink E w hw (E.gfxpoly_fillToPoly line)
      (fun l => .fill l color)
    rw [hout] at hs
    have hc : clipped E w (E.gfxpoly_fillToPoly line) = E.gfxpoly_fillToPoly line := by
      simp [clipped, activeClip, hcl]
    rw [hc] at hs
    exact ⟨w', by rw [polyops_fill_noclip_eq E w line color hcl]; exact h, hs⟩

/-- Witness for C5 amended: the theorem at the freshly constructed device (no
clip, so the fill part applies) and at the device with the clip
`rect[0,0,10,10]` open. -/
theorem shape_forwarding_kinds_witness :
    WF dev0 ∧ dev0.i.out = some 1 ∧ dev0.i.clip = [] ∧
    ((∀ line width color cap_style joint_style miterLimit,
      ∃ w', polyops_stroke boxEnv dev0 line width color cap_style joint_style miterLimit =
          .ok w' ∧
        w'.sink = dev0.sink ++ [SinkCall.fill (boxEnv.gfxpoly_to_gfxline (clipped boxEnv dev0
          (boxEnv.gfxpoly_strokeToPoly line width cap_style joint_style miterLimit))) color]) ∧
    (∀ line img matrix cxform,
      ∃ w', polyops_fillbitmap boxEnv dev0 line img matrix cxform = .ok w' ∧
        w'.sink = dev0.sink ++ [SinkCall.fillbitmap (boxEnv.gfxpoly_to_gfxline
          (clipped boxEnv dev0 (boxEnv.gfxpoly_fillToPoly line))) img matrix cxform]) ∧
    (∀ line gradient type matrix,
      ∃ w', polyops_fillgradient boxEnv dev0 line gradient type matrix = .ok w' ∧
        w'.sink = dev0.sink ++ [SinkCall.fillgradient (boxEnv.gfxpoly_to_gfxline
          (clipped boxEnv dev0 (boxEnv.gfxpoly_fillToPoly line))) gradient type matrix]) ∧
    (dev0.i.clip = [] → ∀ line color,
      ∃ w', polyops_fill boxEnv dev0 line color = .ok w' ∧
        w'.sink = dev0.sink ++ [SinkCall.fill (boxEnv.gfxpoly_to_gfxline
          (boxEnv.gfxpoly_fillToPoly line)) color])) ∧
    WF devClip ∧ devClip.i.out = some 1 ∧
    ((∀ line width color cap_style joint_style miterLimit,
      ∃ w', polyops_stroke boxEnv devClip line width color cap_style joint_style miterLimit =
          .ok w' ∧
        w'.sink = devClip.sink ++ [SinkCall.fill (boxEnv.gfxpoly_to_gfxline (clipped boxEnv devClip
          (boxEnv.gfxpoly_strokeToPoly line width cap_style joint_style miterLimit))) color]) ∧
    (∀ line img matrix cxform,
      ∃ w', polyops_fillbitmap boxEnv devClip line img matrix cxform = .ok w' ∧
        w'.sink = devClip.sink ++ [SinkCall.fillbitmap (boxEnv.gfxpoly_to_gfxline
          (clipped boxEnv devClip (boxEnv.gfxpoly_fillToPoly line))) img matrix cxform]) ∧
    (∀ line gradient type matrix,
      ∃ w', polyops_fillgradient boxEnv devClip line gradient type matrix = .ok w' ∧
        w'.sink = devClip.sink ++ [SinkCall.fillgradient (boxEnv.gfxpoly_to_gfxline
          (clipped boxEnv devClip (boxEnv.gfxpoly_fillToPoly line))) gradient type matrix]) ∧
    (devClip.i.clip = [] → ∀ line color,
      ∃ w', polyops_fill boxEnv devClip line color = .ok w' ∧
        w'.sink = devClip.sink ++ [SinkCall.fill (boxEnv.gfxpoly_to_gfxline
          (boxEnv.gfxpoly_fillToPoly line)) color])) :=
  ⟨WF_dev0, rfl, rfl, shape_forwarding_kinds boxEnv dev0 WF_dev0 1 rfl,
    WF_devClip, rfl, shape_forwarding_kinds boxEnv devClip WF_devClip 1 rfl⟩

/-- C6, the code at the failing input: with the clip `rect[0,0,10,10]` open, a
fill of `rect[20,20,30,30]` (fully outside the clip) forwards no draw call:
`polyops_fill` reads the intersection polygon it has just released.  The sibling
`fillgradient` on the same input forwards one call with the empty outline. -/
theorem fill_outside_clip_not_forwarded :
    run boxEnv dev0 [.startclip (rect 0 0 10 10), .fill (rect 20 20 30 30) 3] =
      .error .useAfterFree ∧
    ∃ w', run boxEnv dev0
        [.startclip (rect 0 0 10 10), .fillgradient (rect 20 20 30 30) 3 0 4] = .ok w' ∧
      w'.sink = [SinkCall.fillgradient [] 3 0 4] := by
  refine ⟨by with_unfolding_all rfl, ?_⟩
  refine ⟨⟨"removeclippings", ⟨some 1, [0], none⟩, [some (rect 0 0 10 10), none, none],
    [SinkCall.fillgradient [] 3 0 4], [], []⟩, ?_, rfl⟩
  with_unfolding_all rfl

/-- C7 (no clip calls downstream): for every command sequence issued to a device
made by either constructor, the trace of calls on the output device, taken after
the longest initial segment of the sequence that runs without undefined
behaviour, contains neither a startclip nor an endclip call. -/
theorem sink_never_receives_clip {Line Poly Coord : Type} (E : Env Line Poly Coord)
    (out : Option Ptr)
    (cs : List (Cmd Line Coord)) :
    (∀ x ∈ (runGood E (gfxdevice_removeclippings_init out) cs).sink,
      SinkCall.isClip x = false) ∧
    (∀ x ∈ (runGood E (gfxdevice_union_init E out) cs).sink, SinkCall.isClip x = false) := by
  obtain ⟨ls1, h1⟩ := runGood_inv E cs _ [] (Inv_removeclippings_init E out)
  obtain ⟨ls2, h2⟩ := runGood_inv E cs _ [] (Inv_union_init E out)
  exact ⟨h1.2.2, h2.2.2⟩

/-- C13 (passthrough): in every state with a bound output device, setparameter,
startpage, addfont, drawlink and endpage each make exactly one call of their own
kind on it with the arguments they were given (the outline of drawlink is passed
on as it is, whatever the clip stack holds) and change nothing else of the state,
so the clip stack, the union pointer and the heap stay as they were;
setparameter returns the value the output device returns, and finish makes the
finish call and returns the output device's result. -/
theorem passthrough_verbatim {Line Poly Coord : Type} (E : Env Line Poly Coord)
    (w : World Line Poly Coord)
    (o : Ptr) (hout : w.i.out = some o) :
    (∀ key value, polyops_setparameter E w key value =
      (callOut w (.setparameter key value), E.out_setparameter w.sink key value)) ∧
    (∀ width height, polyops_startpage w width height = callOut w (.startpage width height)) ∧
    (∀ font, polyops_addfont w font = callOut w (.addfont font)) ∧
    (∀ line action, polyops_drawlink w line action = callOut w (.drawlink line action)) ∧
    polyops_endpage w = callOut w .endpage ∧
    polyops_finish E w = (callOut w .finish, E.out_finish w.sink) ∧
    (∀ c, (callOut w c).sink = w.sink ++ [c] ∧ (callOut w c).i = w.i ∧
      (callOut w c).heap = w.heap ∧ activeClip (callOut w c) = activeClip w ∧
      unionPoly (callOut w c) = unionPoly w) := by
  refine ⟨?_, ?_, ?_, ?_, ?_, ?_, ?_⟩
  · intro key value
    simp [polyops_setparameter, hout]
  · intro width height
    simp [polyops_startpage, hout]
  · intro font
    simp [polyops_addfont, hout]
  · intro line action
    simp [polyops_drawlink, hout]
  · simp [polyops_endpage, hout]
  · simp [polyops_finish, hout]
  · intro c
    exact ⟨rfl, rfl, rfl, rfl, rfl⟩

/-- Witness for C13: the theorem at the device with the clip `rect[0,0,10,10]` open. -/
theorem passthrough_verbatim_witness :
    devClip.i.out = some 1 ∧
    ((∀ key value, polyops_setparameter boxEnv devClip key value =
      (callOut devClip (.setparameter key value), boxEnv.out_setparameter devClip.sink key value)) ∧
    (∀ width height,
      polyops_startpage devClip width height = callOut devClip (.startpage width height)) ∧
    (∀ font, polyops_addfont devClip font = callOut devClip (.addfont font)) ∧
    (∀ line action,
      polyops_drawlink devClip line action = callOut devClip (.drawlink line action)) ∧
    polyops_endpage devClip = callOut devClip .endpage ∧
    polyops_finish boxEnv devClip = (callOut devClip .finish, boxEnv.out_finish devClip.sink) ∧
    (∀ c, (callOut devClip c).sink = devClip.sink ++ [c] ∧ (callOut devClip c).i = devClip.i ∧
      (callOut devClip c).heap = devClip.heap ∧
      activeClip (callOut devClip c) = activeClip devClip ∧
      unionPoly (callOut devClip c) = unionPoly devClip)) :=
  ⟨rfl, passthrough_verbatim boxEnv devClip 1 rfl⟩

/-- C18 (glyph outside any clip): in every state with no active clip, and so in
union-tracking mode too, a drawchar with a present font succeeds, makes exactly
the drawchar call with the original font, glyph index, colour and matrix on a
bound output device, and leaves the device record, the heap and with them the
union accumulator exactly as they were. -/
theorem glyph_without_clip_leaves_union {Line Poly Coord : Type} (E : Env Line Poly Coord)
    (w : World Line Poly Coord) (hclip : w.i.clip = []) (font : Ptr) (glyphnr : Int)
    (color matrix : Ptr) :
    ∃ w', polyops_drawchar E w (some font) glyphnr color matrix = .ok w' ∧
      w'.sink = (match w.i.out with
        | some _ => w.sink ++ [SinkCall.drawchar font glyphnr color matrix]
        | none => w.sink) ∧
      w'.i = w.i ∧ w'.heap = w.heap ∧ unionPoly w' = unionPoly w := by
  cases hout : w.i.out with
  | none =>
    refine ⟨w, ?_, rfl, rfl, rfl, rfl⟩
    simp [polyops_drawchar, hclip, hout, pure, Except.pure]
  | some o =>
    refine ⟨callOut w (.drawchar font glyphnr color matrix), ?_, rfl, rfl, rfl, rfl⟩
    simp [polyops_drawchar, hclip, hout, pure, Except.pure]

/-- Witness for C18: the freshly constructed union device. -/
theorem glyph_without_clip_leaves_union_witness :
    devU.i.clip = [] ∧
    ∃ w', polyops_drawchar boxEnv devU (some 9) 100000 3 0 = .ok w' ∧
      w'.sink = (match devU.i.out with
        | some _ => devU.sink ++ [SinkCall.drawchar 9 100000 3 0]
        | none => devU.sink) ∧
      w'.i = devU.i ∧ w'.heap = devU.heap ∧ unionPoly w' = unionPoly devU :=
  ⟨rfl, glyph_without_clip_leaves_union boxEnv devU rfl 9 100000 3 0⟩

/-- C17, counterexample: with a font whose glyph 0 has no outline, a bound output
device and no clip, drawchar is not a no-op: the drawchar call is forwarded. -/
theorem glyph_absent_is_forwarded :
    boxEnvFont.glyphs 9 0 = boxEnvFont.nullLine ∧
    ∃ w', polyops_drawchar boxEnvFont dev0 (some 9) 0 3 0 = .ok w' ∧
      w'.sink = [SinkCall.drawchar 9 0 3 0] :=
  ⟨rfl, callOut dev0 (.drawchar 9 0 3 0), rfl, rfl⟩

/-- C17, amended: in every state, drawchar called with an absent font is a
no-op: it succeeds and returns the state it was given, so nothing is forwarded
and the clip stack and the union accumulator are unchanged. -/
theorem font_absent_is_noop {Line Poly Coord : Type} (E : Env Line Poly Coord)
    (w : World Line Poly Coord)
    (glyphnr : Int) (color matrix : Ptr) :
    polyops_drawchar E w none glyphnr color matrix = .ok w := by
  simp [polyops_drawchar, pure, Except.pure]

/-- Monotonicity of the accumulator along the commands that run: for a measure
`area` of polygons under which the geometry engine's union is at least as large
as each operand, in every state reached from a freshly constructed union device
the accumulator is present, and every further command that returns leaves an
accumulator of at least the area it had before.  A fill under an active clip
does not return (`polyops_fill_clip_error`) and is not covered. -/
theorem exec_union_area_mono {Line Poly Coord : Type} (E : Env Line Poly Coord)
    (area : Poly → ℚ)
    (hunion : ∀ a b, area a ≤ area (E.gfxpoly_union a b) ∧ area b ≤ area (E.gfxpoly_union a b))
    (out : Option Ptr) (cs : List (Cmd Line Coord)) (w : World Line Poly Coord)
    (c : Cmd Line Coord) (r : World Line Poly Coord × Ret)
    (hrun : run E (gfxdevice_union_init E out) cs = .ok w) (hexec : exec E w c = .ok r) :
    ∃ u u', unionPoly w = some u ∧ unionPoly r.1 = some u' ∧ area u ≤ area u' := by
  have h0 : unionPoly (gfxdevice_union_init E out) =
      some (E.gfxpoly_strokeToPoly E.nullLine E.dbl_zero E.gfx_capButt E.gfx_joinMiter
        E.dbl_zero) := by
    simp [unionPoly, gfxdevice_union_init, alloc, cell, heapAt]
  have hinv := run_inv E cs _ w [] (Inv_union_init E out) hrun
  have hu := run_union_fold E cs _ w [] _ (Inv_union_init E out) h0 hrun
  have hstep := exec_union E w c r hinv.1 hexec
  rw [hu] at hstep
  cases hf : foldedPoly E w c with
  | none =>
    rw [hf] at hstep
    exact ⟨_, _, hu, hstep, le_refl _⟩
  | some v =>
    rw [hf] at hstep
    exact ⟨_, _, hu, hstep, (hunion v _).2⟩

/-- C11, the code at the failing input: on the union device with the clip
`rect[0,0,10,10]` open the accumulator is the seed, of area 0 in the box
environment.  The command `fill(rect[5,5,15,15])` leaves no accumulator whose
area could be compared with it: `polyops_fill` releases the intersection at
address 3 (line 156) and `addtounion` is then handed that released polygon
(line 158).  The sibling `fillbitmap` on the same state takes the accumulator
from area 0 to area 25. -/
theorem union_area_fill_under_clip_undefined :
    run boxEnv (gfxdevice_union_init boxEnv (some 1)) [.startclip (rect 0 0 10 10)] =
      .ok devUClip ∧
    (∃ u, unionPoly devUClip = some u ∧ boxesArea u = 0) ∧
    (∃ w2 w3,
      gfxpoly_intersect boxEnv (alloc devUClip (boxEnv.gfxpoly_fillToPoly (rect 5 5 15 15))).1
        (alloc devUClip (boxEnv.gfxpoly_fillToPoly (rect 5 5 15 15))).2 1 = .ok (w2, 3) ∧
      gfxpoly_free w2 3 = .ok w3 ∧
      addtounion boxEnv w3 3 = .error .useAfterFree) ∧
    exec boxEnv devUClip (.fill (rect 5 5 15 15) 3) = .error .useAfterFree ∧
    ∃ r u', exec boxEnv devUClip (.fillbitmap (rect 5 5 15 15) 3 4 5) = .ok r ∧
      unionPoly r.1 = some u' ∧ boxesArea u' = 25 := by
  refine ⟨devUClip_reachable, ⟨[], rfl, by with_unfolding_all rfl⟩,
    ⟨⟨"union", ⟨some 1, [1], some 0⟩,
        [some [], some (rect 0 0 10 10), some (rect 5 5 15 15), some (rect 5 5 10 10)],
        [], [], []⟩,
      ⟨"union", ⟨some 1, [1], some 0⟩,
        [some [], some (rect 0 0 10 10), some (rect 5 5 15 15), none], [], [], []⟩,
      ?_, ?_, ?_⟩,
    ?_, devUClipFilled, rect 5 5 10 10 ++ [], devUClipFilled_reachable, ?_, ?_⟩
  · with_unfolding_all rfl
  · with_unfolding_all rfl
  · with_unfolding_all rfl
  · with_unfolding_all rfl
  · with_unfolding_all rfl
  · with_unfolding_all rfl

/-- C19 (nested clip frames): for a containment relation `sub` under which the
geometry engine's intersection is contained in both operands, in every state
reached from either constructor by a command sequence each clip frame's polygon
is contained in its parent frame's polygon; a startclip on such a state with an
active clip succeeds and makes a polygon contained in the old active clip the
new active clip, and an endclip with a parent frame below the top succeeds and
makes active the parent's polygon, which contains the one it removes. -/
theorem clip_frames_nested {Line Poly Coord : Type} (E : Env Line Poly Coord)
    (sub : Poly → Poly → Prop)
    (hsub : ∀ a b, sub (E.gfxpoly_intersect a b) a ∧ sub (E.gfxpoly_intersect a b) b)
    (out : Option Ptr) (cs : List (Cmd Line Coord)) (w : World Line Poly Coord)
    (hrun : run E (gfxdevice_removeclippings_init out) cs = .ok w ∨
      run E (gfxdevice_union_init E out) cs = .ok w) :
    FramesNested sub w w.i.clip ∧
    (∀ line v, activeClip w = some v →
      ∃ w' v', polyops_startclip E w line = .ok w' ∧ activeClip w' = some v' ∧ sub v' v) ∧
    (∀ c p rest, w.i.clip = c :: p :: rest →
      ∃ w' vc vp, polyops_endclip w = .ok w' ∧ cell w c = some vc ∧
        activeClip w' = some vp ∧ sub vc vp) := by
  have hinv : Inv E w (openClips cs []) := by
    rcases hrun with h | h
    · exact run_inv E cs _ w [] (Inv_removeclippings_init E out) h
    · exact run_inv E cs _ w [] (Inv_union_init E out) h
  have hnest := FramesNested_of_StackOK E sub hsub w _ _ hinv.2.1
  refine ⟨hnest, ?_, ?_⟩
  · intro line v hv
    obtain ⟨w', p, h1, hclip, _, hcp, _⟩ := startclip_spec E w line hinv.1.head
    refine ⟨w', _, h1, ?_, (hsub (E.gfxpoly_fillToPoly line) v).2⟩
    unfold activeClip
    rw [hclip]
    simp only
    rw [hcp]
    simp [clipped, hv]
  · intro c p rest hcl
    obtain ⟨w', h1, hi, _, _, _, _, _, _, hold⟩ :=
      endclip_spec w c (p :: rest) hcl (hinv.1.1 c (by rw [hcl]; exact List.mem_cons_self _ _))
    rw [hcl] at hnest
    obtain ⟨⟨vc, vp, hvc, hvp, hs⟩, _⟩ := hnest
    refine ⟨w', vc, vp, h1, hvc, ?_, hs⟩
    have hnd := hinv.1.2.1
    rw [hcl] at hnd
    have hne : p ≠ c := by
      intro hpc
      exact (List.nodup_cons.mp hnd).1 (hpc ▸ List.mem_cons_self _ _)
    unfold activeClip
    rw [hi]
    simp only
    rw [hold p hne, hvp]

/-- Witness for C19: the box environment with containment of box regions; the
removeclippings device after two nested startclip calls. -/
theorem clip_frames_nested_witness :
    (∀ a b, boxesSub (boxEnv.gfxpoly_intersect a b) a ∧
      boxesSub (boxEnv.gfxpoly_intersect a b) b) ∧
    (run boxEnv (gfxdevice_removeclippings_init (some 1))
        [.startclip (rect 0 0 10 10), .startclip (rect 5 5 15 15)] = .ok devClip2 ∨
      run boxEnv (gfxdevice_union_init boxEnv (some 1))
        [.startclip (rect 0 0 10 10), .startclip (rect 5 5 15 15)] = .ok devClip2) ∧
    (FramesNested boxesSub devClip2 devClip2.i.clip ∧
    (∀ line v, activeClip devClip2 = some v →
      ∃ w' v', polyops_startclip boxEnv devClip2 line = .ok w' ∧ activeClip w' = some v' ∧
        boxesSub v' v) ∧
    (∀ c p rest, devClip2.i.clip = c :: p :: rest →
      ∃ w' vc vp, polyops_endclip devClip2 = .ok w' ∧ cell devClip2 c = some vc ∧
        activeClip w' = some vp ∧ boxesSub vc vp)) :=
  ⟨boxesSub_inter, Or.inl devClip2_reachable,
    clip_frames_nested boxEnv boxesSub boxesSub_inter (some 1)
      [.startclip (rect 0 0 10 10), .startclip (rect 5 5 15 15)] devClip2
      (Or.inl devClip2_reachable)⟩

/-- The two branches of `polyops_drawchar` under a clip that do not call
`polyops_fill`: in every well-formed state with an active clip and a union
accumulator, a drawchar with a present font for which the test of line 227 is
true, or else the test of lines 228-229 is false, succeeds and leaves as
accumulator the union of the clipped bounding-box polygon
`intersect(box(bbox), clip)` with the old accumulator. -/
theorem drawchar_union_box_only {Line Poly Coord : Type} (E : Env Line Poly Coord)
    (w : World Line Poly Coord) (hw : WF w) (hact : w.i.clip ≠ []) (old : Poly)
    (hold : unionPoly w = some old) (font : Ptr) (glyphnr : Int) (color matrix : Ptr)
    (hbranch : clippedAway E (clippedBBox E w font glyphnr matrix) ∨
      ¬ sizeChanged E (glyphBBox E font glyphnr matrix) (clippedBBox E w font glyphnr matrix)) :
    ∃ w', polyops_drawchar E w (some font) glyphnr color matrix = .ok w' ∧
      unionPoly w' = some (E.gfxpoly_union
        (clipped E w (boxPoly E (glyphBBox E font glyphnr matrix))) old) := by
  obtain ⟨w1, _, _, hun, _, h⟩ := drawchar_clip_branches E w hw hact font glyphnr color matrix
  have hu1 := UnionAdded_unionPoly E w w1 _ hun
  rw [hold] at hu1
  by_cases htiny : clippedAway E (clippedBBox E w font glyphnr matrix)
  · rw [if_pos htiny] at h
    exact ⟨w1, h, hu1⟩
  · rcases hbranch with hb | hb
    · exact absurd hb htiny
    · rw [if_neg htiny, if_neg hb] at h
      cases hout : w1.i.out with
      | none =>
        rw [hout] at h
        exact ⟨w1, h, hu1⟩
      | some o =>
        rw [hout] at h
        exact ⟨_, h, hu1⟩

/-- C12, the code at the failing input: on the union device,
`startclip(rect[0,0,10,10])` followed by `fill(rect[5,5,15,15])` does not fold
the clipped polygon: `polyops_fill` releases the intersection and `addtounion`
then reads it.  The sibling `fillbitmap` on the same input leaves the
accumulator `union(rect[5,5,10,10], seed)`, and `gfxdevice_union_getunion`
returns its outline. -/
theorem union_fold_fill_under_clip_fails :
    run boxEnv devU [.startclip (rect 0 0 10 10), .fill (rect 5 5 15 15) 3] =
      .error .useAfterFree ∧
    ∃ w', run boxEnv devU [.startclip (rect 0 0 10 10), .fillbitmap (rect 5 5 15 15) 3 4 5] =
        .ok w' ∧
      unionPoly w' = some (boxEnv.gfxpoly_union (rect 5 5 10 10)
        (boxEnv.gfxpoly_strokeToPoly boxEnv.nullLine 0 boxEnv.gfx_capButt
          boxEnv.gfx_joinMiter 0)) ∧
      gfxdevice_union_getunion boxEnv w' = .ok (rect 5 5 10 10) := by
  refine ⟨by with_unfolding_all rfl, devUClipFilled.1, ?_, ?_, ?_⟩
  · with_unfolding_all rfl
  · with_unfolding_all rfl
  · with_unfolding_all rfl

/-- C14, the code at the failing input: with no output device bound and the
clip `rect[0,0,10,10]` open, `fill(rect[5,5,15,15])` does not complete without
failure: it reads the polygon it has just released.  The sibling `fillbitmap`
on the same state completes and makes no call. -/
theorem fill_without_sink_under_clip_fails :
    devClipNoSink.i.out = none ∧
    polyops_fill boxEnv devClipNoSink (rect 5 5 15 15) 3 = .error .useAfterFree ∧
    ∃ w', polyops_fillbitmap boxEnv devClipNoSink (rect 5 5 15 15) 3 4 5 = .ok w' ∧
      w'.sink = [] := by
  refine ⟨rfl, by with_unfolding_all rfl,
    ⟨"removeclippings", ⟨none, [0], none⟩, [some (rect 0 0 10 10), none, none], [], [], []⟩,
    ?_, rfl⟩
  with_unfolding_all rfl

/-- C16, the code at the failing input: line by line through the clip branch of
`polyops_fill` for `fill(rect[5,5,15,15])` under the clip `rect[0,0,10,10]`.
The intersection is stored at address 2; the `gfxpoly_free` of line 156 releases
that address, so the intersection result is disposed before it is folded or
converted, the superseded polygon at address 1 is never disposed, and the
conversion of line 159 reads the released polygon. -/
theorem fill_disposes_intersection_result :
    ∃ w2 w3,
      gfxpoly_intersect boxEnv (alloc devClip (boxEnv.gfxpoly_fillToPoly (rect 5 5 15 15))).1
        (alloc devClip (boxEnv.gfxpoly_fillToPoly (rect 5 5 15 15))).2 0 = .ok (w2, 2) ∧
      (alloc devClip (boxEnv.gfxpoly_fillToPoly (rect 5 5 15 15))).2 = 1 ∧
      cell w2 2 = some (rect 5 5 10 10) ∧
      gfxpoly_free w2 2 = .ok w3 ∧
      cell w3 2 = none ∧ cell w3 1 = some (rect 5 5 15 15) ∧
      addtounion boxEnv w3 2 = .ok w3 ∧
      gfxpoly_to_gfxline boxEnv w3 2 = .error .useAfterFree ∧
      polyops_fill boxEnv devClip (rect 5 5 15 15) 3 = .error .useAfterFree := by
  refine ⟨⟨"removeclippings", ⟨some 1, [0], none⟩,
      [some (rect 0 0 10 10), some (rect 5 5 15 15), some (rect 5 5 10 10)], [], [], []⟩,
    ⟨"removeclippings", ⟨some 1, [0], none⟩,
      [some (rect 0 0 10 10), some (rect 5 5 15 15), none], [], [], []⟩,
    ?_, ?_, ?_, ?_, ?_, ?_, ?_, ?_, ?_⟩
  · with_unfolding_all rfl
  · rfl
  · rfl
  · rfl
  · rfl
  · rfl
  · rfl
  · rfl
  · with_unfolding_all rfl

end Polyops
